import Mathlib

/-!
Verification of the profile-diagnostics and Stokes-drift routines of the
gotmtool repository (`gotmtool/diags.py` and `gotmtool/stokesdrift.py`).

Arrays are modelled as Lean lists; a depth-time profile is a list of
per-time-step columns (the Python code loops over the time axis and treats
each column independently).  Floating-point numbers in the diagnostics
routines are modelled by exact rationals; possibly-NaN entries of the
temperature/density profiles are modelled as `Option ℚ` (`none` = NaN).
The Stokes-drift routines involve `sinh`/`exp`/`π` and are modelled over ℝ.

Python's `UnboundLocalError` (triggered in `get_bld_nuh` by the assignment
`bld[i] = z[0]` before `bld` is defined) and `IndexError` (out-of-bounds
array access in `stokes_drift_tail_fm5`) are modelled by `Option`-valued
functions returning `none`.
-/

namespace GotmTool

/-! ## numpy scan primitives -/

/-- Auxiliary scanner for `np.argmax`: `i` is the index of the head of the
remaining list, `best`/`bv` the index and value of the current maximum.
`np.argmax` keeps the first occurrence of the maximum, hence the strict
comparison. -/
def argmaxAux : List ℚ → ℕ → ℕ → ℚ → ℕ
  | [], _, best, _ => best
  | x :: xs, i, best, bv =>
    if bv < x then argmaxAux xs (i + 1) i x else argmaxAux xs (i + 1) best bv

/-- Model of `np.argmax` on a rational vector (first index of the maximum). -/
def npArgmax : List ℚ → ℕ
  | [] => 0
  | x :: xs => argmaxAux xs 1 0 x

/-- Auxiliary scanner for `np.argmin`, symmetric to `argmaxAux`. -/
def argminAux : List ℚ → ℕ → ℕ → ℚ → ℕ
  | [], _, best, _ => best
  | x :: xs, i, best, bv =>
    if x < bv then argminAux xs (i + 1) i x else argminAux xs (i + 1) best bv

/-- Model of `np.argmin` on a rational vector (first index of the minimum). -/
def npArgmin : List ℚ → ℕ
  | [] => 0
  | x :: xs => argminAux xs 1 0 x

/-- Kernel-reducible absolute value on ℚ, modelling `np.abs`. -/
def ratAbs (x : ℚ) : ℚ :=
  if x < 0 then -x else x

/-- Kernel-reducible binary minimum on ℚ. -/
def ratMin (x y : ℚ) : ℚ :=
  if x ≤ y then x else y

/-- Model of `np.min` on a rational vector. -/
def npMin : List ℚ → ℚ
  | [] => 0
  | x :: xs => xs.foldl ratMin x

/-- Map a fallible function over a list, failing if any element fails.
Models a Python loop that may raise on some iteration. -/
def optMapL {α : Type} {β : Type} : List α → (α → Option β) → Option (List β)
  | [], _ => some []
  | x :: xs, f =>
    match f x, optMapL xs f with
    | some y, some ys => some (y :: ys)
    | _, _ => none

/-- NaN-propagating subtraction on possibly-NaN (`none`) floats. -/
def sub? : Option ℚ → Option ℚ → Option ℚ
  | some a, some b => some (a - b)
  | _, _ => none

/-! ## diags.py: mixed layer depth (temperature threshold) -/

/-- The per-level temperature difference array `dT` of `get_mld_deltaT`,
after the two sentinel replacements `dT[idx_zref:] = 0.` and
`dT[np.isnan(dT)] = 0.`.  `z` is the depth coordinate, `tcol` the
temperature column of one time step, `j` the depth index. -/
def mld_dT (z : List ℚ) (tcol : List (Option ℚ)) (zRef : ℚ) (j : ℕ) : ℚ :=
  let iref := npArgmin (z.map (fun x => ratAbs (x - zRef)))
  if iref ≤ j then 0
  else
    match sub? (tcol.getD j none) (tcol.getD iref none) with
    | some d => d
    | none => 0

/-- One time step of `get_mld_deltaT` (the value before the final `np.abs`):
scan for indices where `|dT| ≥ deltaT`, take the largest such index
(closest to the surface), fall back to `np.min(z)` if none qualifies. -/
def get_mld_deltaT_step (z : List ℚ) (tcol : List (Option ℚ)) (deltaT zRef : ℚ) : ℚ :=
  let crossings := (List.range z.length).filter (fun j => decide (deltaT ≤ ratAbs (mld_dT z tcol zRef j)))
  if crossings = [] then npMin z else z.getD (crossings.foldl max 0) 0

/-- Model of `get_mld_deltaT`: one output value per time step, reported as a
magnitude (`np.abs`). `Temp` is the list of per-time-step columns. -/
def get_mld_deltaT (Temp : List (List (Option ℚ))) (z : List ℚ) (deltaT zRef : ℚ) : List ℚ :=
  Temp.map (fun tcol => ratAbs (get_mld_deltaT_step z tcol deltaT zRef))

/-! ## diags.py: mixed layer depth (density threshold) -/

/-- The per-level density difference array `dRho` of `get_mld_deltaR`, after
the sentinel replacements `dRho[idx_zref:] = -99.` and
`dRho[np.isnan(dRho)] = -99.`. -/
def mld_dR (z : List ℚ) (rcol : List (Option ℚ)) (zRef : ℚ) (j : ℕ) : ℚ :=
  let iref := npArgmin (z.map (fun x => ratAbs (x - zRef)))
  if iref ≤ j then -99
  else
    match sub? (rcol.getD j none) (rcol.getD iref none) with
    | some d => d
    | none => -99

/-- One time step of `get_mld_deltaR` (before the final `np.abs`): the
crossing test is signed, `dRho ≥ deltaR`. -/
def get_mld_deltaR_step (z : List ℚ) (rcol : List (Option ℚ)) (deltaR zRef : ℚ) : ℚ :=
  let crossings := (List.range z.length).filter (fun j => decide (deltaR ≤ mld_dR z rcol zRef j))
  if crossings = [] then npMin z else z.getD (crossings.foldl max 0) 0

/-- Model of `get_mld_deltaR`. -/
def get_mld_deltaR (Rho : List (List (Option ℚ))) (z : List ℚ) (deltaR zRef : ℚ) : List ℚ :=
  Rho.map (fun rcol => ratAbs (get_mld_deltaR_step z rcol deltaR zRef))

/-! ## diags.py: boundary layer depth (maximum stratification) -/

/-- The noise increment `1e-15` of `get_bld_maxNN`. -/
def noiseUnit : ℚ := 1 / 10 ^ 15

/-- One time step of `get_bld_maxNN` (before the final `np.abs`):
`z[np.argmax(Nsqr[:,i] + noise)]` with `noise = np.arange(nz) * 1e-15`. -/
def get_bld_maxNN_step (z : List ℚ) (col : List ℚ) : ℚ :=
  z.getD (npArgmax ((List.range z.length).map (fun j => col.getD j 0 + (j : ℚ) * noiseUnit))) 0

/-- Model of `get_bld_maxNN`. -/
def get_bld_maxNN (NN : List (List ℚ)) (z : List ℚ) : List ℚ :=
  NN.map (fun col => ratAbs (get_bld_maxNN_step z col))

/-! ## diags.py: boundary layer depth (diffusivity / TKE threshold) -/

/-- The index list of `get_bld_nuh`/`get_bld_tke`:
`np.where(col < crit)[0]` restricted to indices `< nz - 1`. -/
def bld_idxlist (z : List ℚ) (col : List ℚ) (crit : ℚ) : List ℕ :=
  ((List.range col.length).filter (fun j => decide (col.getD j 0 < crit))).filter
    (fun j => decide (j + 1 < z.length))

/-- One time step of `get_bld_nuh` (before the final `np.abs`).  The empty
branch executes `bld[i] = z[0]`, but the local `bld` is not yet defined at
that point in the Python source (only `bld_val` is), so the call raises
`UnboundLocalError`; this is modelled by `none`. -/
def get_bld_nuh_step (z : List ℚ) (col : List ℚ) (nuh_bg : ℚ) : Option ℚ :=
  let idxlist := bld_idxlist z col nuh_bg
  if idxlist = [] then none
  else
    let idx1 := idxlist.foldl max 0
    if idx1 + 2 < z.length then
      some (z.getD (idx1 + 1) 0 -
        (z.getD (idx1 + 1) 0 - z.getD idx1 0) * (col.getD (idx1 + 1) 0 - nuh_bg) /
          (col.getD (idx1 + 1) 0 - col.getD idx1 0))
    else some (z.getD (z.length - 1) 0)

/-- Model of `get_bld_nuh`: `none` when any time step hits the faulty
fallback branch. -/
def get_bld_nuh (nuh : List (List ℚ)) (z : List ℚ) (nuh_bg : ℚ) : Option (List ℚ) :=
  (optMapL nuh (fun col => get_bld_nuh_step z col nuh_bg)).map (fun l => l.map ratAbs)

/-- One time step of `get_bld_tke` (before the final `np.abs`); identical to
`get_bld_nuh_step` except that the empty branch correctly assigns
`bld_val[i] = z[0]`. -/
def get_bld_tke_step (z : List ℚ) (col : List ℚ) (tke_crit : ℚ) : ℚ :=
  let idxlist := bld_idxlist z col tke_crit
  if idxlist = [] then z.getD 0 0
  else
    let idx1 := idxlist.foldl max 0
    if idx1 + 2 < z.length then
      z.getD (idx1 + 1) 0 -
        (z.getD (idx1 + 1) 0 - z.getD idx1 0) * (col.getD (idx1 + 1) 0 - tke_crit) /
          (col.getD (idx1 + 1) 0 - col.getD idx1 0)
    else z.getD (z.length - 1) 0

/-- Model of `get_bld_tke`. -/
def get_bld_tke (tke : List (List ℚ)) (z : List ℚ) (tke_crit : ℚ) : List ℚ :=
  tke.map (fun col => ratAbs (get_bld_tke_step z col tke_crit))


/-! ## stokesdrift.py: definitions -/

/-- Modelled from the spec: the gravitational acceleration `gravity` is
imported by `stokesdrift.py` from a `constants` module that is not among the
sources; the spec only refers to it as `g`, the standard value 9.81 m/s2. -/
noncomputable def gravity : ℝ := 9.81

/-- The Donelan et al. 1985 spectrum factor of `_stokes_drift_kernel_dhh85`
(everything up to and including `gamma1 ** gamma2`). -/
noncomputable def dhh85_spec (omega wind_speed wave_age : ℝ) : ℝ :=
  let iwa := 1 / wave_age
  let omega_p := gravity * iwa / wind_speed
  let alpha := 0.006 * iwa ^ (0.55 : ℝ)
  let sigma := 0.08 * (1 + 4 * wave_age ^ (3 : ℕ))
  let gamma1 := if iwa ≤ 1 then (1.7 : ℝ) else 1.7 + 6 * Real.logb 10 iwa
  let gamma2 := Real.exp (-(1 / 2) * (omega - omega_p) ^ 2 / sigma ^ 2 / omega_p ^ 2)
  alpha * gravity ^ 2 / (omega_p * omega ^ 4) * Real.exp (-(omega_p / omega) ^ 4) *
    gamma1 ^ gamma2

/-- Model of `_stokes_drift_kernel_dhh85`: spectrum kernel times the vertical
attenuation factor `sinh(kdz)/kdz` (cutoff 10) times exponential decay. -/
noncomputable def dhh85_kernel (omega z dz wind_speed wave_age : ℝ) : ℝ :=
  let kdz := omega ^ 2 * dz / gravity
  let zfilter := if kdz < 10 then Real.sinh kdz / kdz else 1
  2 * (dhh85_spec omega wind_speed wave_age * omega ^ 3) * zfilter *
    Real.exp (2 * omega ^ 2 * z / gravity) / gravity

/-- The kernel with the attenuation factor replaced by 1 (bare exponential
decay), used to state the branch structure of the cutoff. -/
noncomputable def dhh85_bare (omega z wind_speed wave_age : ℝ) : ℝ :=
  2 * (dhh85_spec omega wind_speed wave_age * omega ^ 3) *
    Real.exp (2 * omega ^ 2 * z / gravity) / gravity

/-- The thickness part `dz` of `_get_grid`: centered differences for interior
levels, one-sided at the surface, `dz[-1] = dz[-2]` at the bottom, and the
arbitrarily large value `1e6` for a single-level grid. -/
noncomputable def grid_dz (z : List ℝ) : List ℝ :=
  if z.length = 1 then [1000000]
  else
    (List.range z.length).map (fun i : ℕ =>
      if i = 0 then -z.getD 0 0 + (z.getD 0 0 - z.getD 1 0) / 2
      else if i + 1 < z.length then (z.getD (i - 1) 0 - z.getD (i + 1) 0) / 2
      else if z.length = 2 then -z.getD 0 0 + (z.getD 0 0 - z.getD 1 0) / 2
      else (z.getD (z.length - 3) 0 - z.getD (z.length - 1) 0) / 2)

/-- The interface part `zi` of `_get_grid`: `zi[0] = 0`,
`zi[k] = -sum(dz[0:k])` (length `nz+1`), except that a single-level grid
returns `zi = z` (length 1). -/
noncomputable def grid_zi (z : List ℝ) : List ℝ :=
  if z.length = 1 then z
  else (List.range (z.length + 1)).map (fun i : ℕ => -((grid_dz z).take i).sum)

/-- Model of `_get_grid`, returning the `(dz, zi)` pair. -/
noncomputable def get_grid (z : List ℝ) : List ℝ × List ℝ :=
  (grid_dz z, grid_zi z)

/-- Model of `stokes_drift_dhh85`: rectangle-rule frequency integration of the
kernel over `n_omega` equally spaced frequencies (`np.linspace`), one output
value per depth level. -/
noncomputable def stokes_drift_dhh85 (z : List ℝ)
    (wind_speed wave_age omega_min omega_max : ℝ) (n_omega : ℕ) : List ℝ :=
  let domega := (omega_max - omega_min) / ((n_omega : ℝ) - 1)
  (List.range z.length).map (fun i : ℕ =>
    ∑ j in Finset.range n_omega,
      domega * dhh85_kernel (omega_min + (j : ℝ) * domega) (z.getD i 0)
        ((grid_dz z).getD i 0) wind_speed wave_age)

/-- The per-band factor `factor2 = 8 pi^2 / g * f^2` (twice the deep-water
wavenumber) of `stokes_drift_spec` and `stokes_drift_usp`. -/
noncomputable def spec_factor2 (f : ℝ) : ℝ :=
  8 * Real.pi ^ 2 / gravity * f ^ 2

/-- The per-(level, band) contribution `tmp` of `stokes_drift_spec`, with the
depth-averaging switch at `kdz = factor2 * dz / 2 = 100`. -/
noncomputable def spec_tmp (f df s zval dzval : ℝ) : ℝ :=
  let kdz := spec_factor2 f * dzval / 2
  if kdz < 100 then
    Real.sinh kdz / kdz * (2 * Real.pi * f * spec_factor2 f * df) * s *
      Real.exp (spec_factor2 f * zval)
  else (2 * Real.pi * f * spec_factor2 f * df) * s * Real.exp (spec_factor2 f * zval)

/-- The `stokes_drift_spec` contribution with attenuation factor 1. -/
noncomputable def spec_bare (f df s zval : ℝ) : ℝ :=
  (2 * Real.pi * f * spec_factor2 f * df) * s * Real.exp (spec_factor2 f * zval)

/-- The per-(level, band) contribution of `stokes_drift_usp`, with the same
`kdz < 100` switch but no kernel/energy factor. -/
noncomputable def usp_tmp (f zval dzval : ℝ) : ℝ :=
  let kdz := spec_factor2 f * dzval / 2
  if kdz < 100 then Real.sinh kdz / kdz * Real.exp (spec_factor2 f * zval)
  else Real.exp (spec_factor2 f * zval)

/-- The `stokes_drift_usp` contribution with attenuation factor 1. -/
noncomputable def usp_bare (f zval : ℝ) : ℝ :=
  Real.exp (spec_factor2 f * zval)

/-- Model of `stokes_drift_tail_fm5` (Harcourt and D'Asaro 2008 f^-5 tail).
The external `scipy.special.erfc` is a parameter.  Each loop iteration reads
`zi[i]`, `zi[i+1]` and `dz[i]`; an out-of-bounds access (Python `IndexError`)
makes the whole call fail, modelled by `none`. -/
noncomputable def stokes_drift_tail_fm5 (erfc : ℝ → ℝ) (z : List ℝ)
    (sp xcmp ycmp freq : ℝ) : Option (List (ℝ × ℝ)) :=
  optMapL (List.range z.length) (fun i =>
    match (grid_zi z).get? i, (grid_zi z).get? (i + 1), (grid_dz z).get? i with
    | some zii, some zii1, some dzi =>
      let aplus := max (1 / 100000000) (-(8 * Real.pi ^ 2 / gravity) * freq ^ 2 * zii)
      let aminus := -(8 * Real.pi ^ 2 / gravity) * freq ^ 2 * zii1
      let iplus := 2 * aplus / 3 * (Real.sqrt (Real.pi * aplus) * erfc (Real.sqrt aplus) -
        (1 - 1 / 2 / aplus) * Real.exp (-aplus))
      let iminus := 2 * aminus / 3 * (Real.sqrt (Real.pi * aminus) * erfc (Real.sqrt aminus) -
        (1 - 1 / 2 / aminus) * Real.exp (-aminus))
      let tmp := 2 * Real.pi * freq ^ 2 / dzi * sp * (iplus - iminus)
      some (tmp * xcmp, tmp * ycmp)
    | _, _, _ => none)

/-- Model of `stokes_drift_spec`: discretized-spectrum integration with the
optional f^-5 tail appended from the last band and the cutoff frequency
`freq[-1] + dfreq[-1]/2`. -/
noncomputable def stokes_drift_spec (z sp xcmp ycmp freq dfreq : List ℝ)
    (tail_fm5 : Bool) (erfc : ℝ → ℝ) : Option (List ℝ × List ℝ) :=
  let us := (List.range z.length).map (fun i : ℕ =>
    ∑ j in Finset.range freq.length,
      spec_tmp (freq.getD j 0) (dfreq.getD j 0) (sp.getD j 0) (z.getD i 0)
        ((grid_dz z).getD i 0) * xcmp.getD j 0)
  let vs := (List.range z.length).map (fun i : ℕ =>
    ∑ j in Finset.range freq.length,
      spec_tmp (freq.getD j 0) (dfreq.getD j 0) (sp.getD j 0) (z.getD i 0)
        ((grid_dz z).getD i 0) * ycmp.getD j 0)
  if tail_fm5 then
    match stokes_drift_tail_fm5 erfc z (sp.getD (sp.length - 1) 0)
        (xcmp.getD (xcmp.length - 1) 0) (ycmp.getD (ycmp.length - 1) 0)
        (freq.getD (freq.length - 1) 0 + dfreq.getD (dfreq.length - 1) 0 / 2) with
    | none => none
    | some l => some (us.zipWith (fun u t => u + t) (l.map Prod.fst),
        vs.zipWith (fun v t => v + t) (l.map Prod.snd))
  else some (us, vs)

/-- Model of `stokes_drift_usp`: partitioned surface Stokes drift components
propagated to depth by the attenuation factor only. -/
noncomputable def stokes_drift_usp (z freq ussp vssp : List ℝ) :
    List ℝ × List ℝ :=
  ((List.range z.length).map (fun i : ℕ =>
      ∑ j in Finset.range freq.length,
        usp_tmp (freq.getD j 0) (z.getD i 0) ((grid_dz z).getD i 0) * ussp.getD j 0),
   (List.range z.length).map (fun i : ℕ =>
      ∑ j in Finset.range freq.length,
        usp_tmp (freq.getD j 0) (z.getD i 0) ((grid_dz z).getD i 0) * vssp.getD j 0))


/-! ## List scanning helper lemmas -/

/-- A filter over `List.range n` whose predicate fails below `n` is empty. -/
lemma filter_range_eq_nil {p : ℕ → Bool} {n : ℕ} (h : ∀ j < n, ¬ p j = true) :
    (List.range n).filter p = [] := by
  rw [List.filter_eq_nil_iff]
  intro a ha
  exact h a (List.mem_range.mp ha)

/-- A filter over `List.range n` whose predicate holds exactly at `k < n` is `[k]`. -/
lemma filter_range_eq_singleton {p : ℕ → Bool} {n k : ℕ} (hk : k < n)
    (h : ∀ j < n, p j = true ↔ j = k) : (List.range n).filter p = [k] := by
  induction n with
  | zero => omega
  | succ m ih =>
    rw [List.range_succ, List.filter_append]
    by_cases hkm : k = m
    · subst hkm
      have h1 : (List.range k).filter p = [] := by
        apply filter_range_eq_nil
        intro j hj hpj
        have := (h j (Nat.lt_succ_of_lt hj)).mp hpj
        omega
      have h2 : p k = true := (h k (Nat.lt_succ_self k)).mpr rfl
      simp [h1, h2]
    · have hk2 : k < m := by omega
      have h1 := ih hk2 (fun j hj => h j (Nat.lt_succ_of_lt hj))
      have h2 : ¬ p m = true := by
        intro hpm
        exact hkm ((h m (Nat.lt_succ_self m)).mp hpm).symm
      simp [h1, h2]

/-- `List.foldl max` returns the maximum element of a list of indices. -/
lemma foldl_max_eq {m : ℕ} : ∀ (l : List ℕ) (a : ℕ), a ≤ m → (m ∈ l ∨ a = m) →
    (∀ x ∈ l, x ≤ m) → l.foldl max a = m
  | [], a, _, hmem, _ => by
    simpa using hmem
  | x :: xs, a, ha, hmem, hbound => by
    rw [List.foldl_cons]
    have hx : x ≤ m := hbound x (List.mem_cons_self x xs)
    have hbound2 : ∀ y ∈ xs, y ≤ m := fun y hy => hbound y (List.mem_cons_of_mem x hy)
    rcases hmem with hm | hm
    · rcases List.mem_cons.mp hm with rfl | hm2
      · exact foldl_max_eq xs (max a m) (by omega) (Or.inr (by omega)) hbound2
      · exact foldl_max_eq xs (max a x) (by omega) (Or.inl hm2) hbound2
    · exact foldl_max_eq xs (max a x) (by omega) (Or.inr (by omega)) hbound2

/-- Folding `ratMin` can only decrease the accumulator. -/
lemma foldl_ratMin_le_init : ∀ (l : List ℚ) (a : ℚ), l.foldl ratMin a ≤ a
  | [], _ => le_refl _
  | x :: xs, a => by
    rw [List.foldl_cons]
    refine le_trans (foldl_ratMin_le_init xs (ratMin a x)) ?h
    unfold ratMin
    split
    · exact le_refl a
    · linarith [lt_of_not_le (by assumption : ¬ a ≤ x)]

/-- The `ratMin` fold is a lower bound for every list element. -/
lemma foldl_ratMin_le_mem : ∀ (l : List ℚ) (a y : ℚ), y ∈ l → l.foldl ratMin a ≤ y
  | x :: xs, a, y, hy => by
    rw [List.foldl_cons]
    rcases List.mem_cons.mp hy with rfl | hy2
    · refine le_trans (foldl_ratMin_le_init xs (ratMin a y)) ?h
      unfold ratMin
      split
      · assumption
      · exact le_refl y
    · exact foldl_ratMin_le_mem xs (ratMin a x) y hy2

/-- `npMin` lower-bounds every element of the list. -/
lemma npMin_le (l : List ℚ) (y : ℚ) (hy : y ∈ l) : npMin l ≤ y := by
  cases l with
  | nil => cases hy
  | cons x xs =>
    rcases List.mem_cons.mp hy with rfl | hy2
    · exact foldl_ratMin_le_init xs y
    · exact foldl_ratMin_le_mem xs x y hy2

/-! ## Claim C2: single threshold crossing selects that level -/

/-- C2: if exactly one level `k` strictly below the reference level crosses the
threshold (`|dT| ≥ deltaT` for temperature; signed `dRho ≥ deltaR` for density)
and no other level qualifies, then the mixed-layer depth reported for that time
step is `|z[k]|`.  Levels at or above the reference index and NaN entries are
sentinel-replaced (`0` resp. `-99`) by `mld_dT`/`mld_dR` and cannot qualify. -/
theorem mld_single_crossing_selects_level
    (Temp : List (List (Option ℚ))) (z : List ℚ) (deltaT zRef : ℚ)
    (i k : ℕ) (tcol : List (Option ℚ)) (dk : ℚ)
    (hcol : Temp.get? i = some tcol)
    (hk : k < z.length)
    (hkref : k < npArgmin (z.map (fun x => ratAbs (x - zRef))))
    (hsub : sub? (tcol.getD k none)
      (tcol.getD (npArgmin (z.map (fun x => ratAbs (x - zRef)))) none) = some dk)
    (hcross : deltaT ≤ ratAbs dk)
    (honly : ∀ j < z.length, j ≠ k → ratAbs (mld_dT z tcol zRef j) < deltaT)
    (Rho : List (List (Option ℚ))) (z2 : List ℚ) (deltaR zRef2 : ℚ)
    (i2 k2 : ℕ) (rcol : List (Option ℚ)) (dk2 : ℚ)
    (hcol2 : Rho.get? i2 = some rcol)
    (hk2 : k2 < z2.length)
    (hkref2 : k2 < npArgmin (z2.map (fun x => ratAbs (x - zRef2))))
    (hsub2 : sub? (rcol.getD k2 none)
      (rcol.getD (npArgmin (z2.map (fun x => ratAbs (x - zRef2)))) none) = some dk2)
    (hcross2 : deltaR ≤ dk2)
    (honly2 : ∀ j < z2.length, j ≠ k2 → mld_dR z2 rcol zRef2 j < deltaR) :
    (get_mld_deltaT Temp z deltaT zRef).get? i = some (ratAbs (z.getD k 0)) ∧
    (get_mld_deltaR Rho z2 deltaR zRef2).get? i2 = some (ratAbs (z2.getD k2 0)) := by
  constructor
  · rw [get_mld_deltaT, List.get?_map, hcol, Option.map_some']
    have hdk : mld_dT z tcol zRef k = dk := by
      unfold mld_dT
      rw [if_neg (by omega), hsub]
    have hfilter : (List.range z.length).filter
        (fun j => decide (deltaT ≤ ratAbs (mld_dT z tcol zRef j))) = [k] := by
      apply filter_range_eq_singleton hk
      intro j hj
      constructor
      · intro hpj
        by_contra hjk
        exact absurd (of_decide_eq_true hpj) (not_le.mpr (honly j hj hjk))
      · rintro rfl
        rw [decide_eq_true_eq, hdk]
        exact hcross
    unfold get_mld_deltaT_step
    rw [hfilter]
    simp
  · rw [get_mld_deltaR, List.get?_map, hcol2, Option.map_some']
    have hdk : mld_dR z2 rcol zRef2 k2 = dk2 := by
      unfold mld_dR
      rw [if_neg (by omega), hsub2]
    have hfilter : (List.range z2.length).filter
        (fun j => decide (deltaR ≤ mld_dR z2 rcol zRef2 j)) = [k2] := by
      apply filter_range_eq_singleton hk2
      intro j hj
      constructor
      · intro hpj
        by_contra hjk
        exact absurd (of_decide_eq_true hpj) (not_le.mpr (honly2 j hj hjk))
      · rintro rfl
        rw [decide_eq_true_eq, hdk]
        exact hcross2
    unfold get_mld_deltaR_step
    rw [hfilter]
    simp

/-- Witness for C2 at a concrete profile: `z = [-30,-20,-10,-5]`, reference
index 2, a single temperature crossing at level 0 and a single density
crossing at level 0. -/
theorem mld_single_crossing_selects_level_witness :
    (get_mld_deltaT [[some 15, some 17, some 18, some 19]] [-30, -20, -10, -5] 2 (-10)).get? 0 =
      some (ratAbs ([-30, -20, -10, -5].getD 0 0)) ∧
    (get_mld_deltaR [[some 1030, some (2053/2), some 1026, some 1026]]
      [-30, -20, -10, -5] 1 (-10)).get? 0 =
      some (ratAbs ([-30, -20, -10, -5].getD 0 0)) := by
  refine mld_single_crossing_selects_level
    [[some 15, some 17, some 18, some 19]] [-30, -20, -10, -5] 2 (-10) 0 0
    [some 15, some 17, some 18, some 19] (-3) rfl (by norm_num)
    (by norm_num [npArgmin, argminAux, ratAbs]) ?hs1 (by norm_num [ratAbs]) ?ho1
    [[some 1030, some (2053/2), some 1026, some 1026]] [-30, -20, -10, -5] 1 (-10) 0 0
    [some 1030, some (2053/2), some 1026, some 1026] 4 rfl (by norm_num)
    (by norm_num [npArgmin, argminAux, ratAbs]) ?hs2 (by norm_num) ?ho2
  case hs1 => norm_num [npArgmin, argminAux, ratAbs, sub?]
  case ho1 =>
    intro j hj hjk
    have hj4 : j < 4 := by simpa using hj
    clear hj
    interval_cases j
    · omega
    · norm_num [mld_dT, npArgmin, argminAux, ratAbs, sub?]
    · norm_num [mld_dT, npArgmin, argminAux, ratAbs, sub?]
    · norm_num [mld_dT, npArgmin, argminAux, ratAbs, sub?]
  case hs2 => norm_num [npArgmin, argminAux, ratAbs, sub?]
  case ho2 =>
    intro j hj hjk
    have hj4 : j < 4 := by simpa using hj
    clear hj
    interval_cases j
    · omega
    · norm_num [mld_dR, npArgmin, argminAux, ratAbs, sub?]
    · norm_num [mld_dR, npArgmin, argminAux, ratAbs, sub?]
    · norm_num [mld_dR, npArgmin, argminAux, ratAbs, sub?]

/-! ## Claim C3: no crossing falls back to the deepest level -/

/-- C3: if no level qualifies at a time step (all sentinel-processed
differences stay below the threshold), both mixed-layer-depth routines report
`|np.min(z)|`, the magnitude of the deepest input depth, and no error is
raised (the routines are total); the second conjunct of each part states that
`npMin z` is indeed the deepest (smallest) depth value. -/
theorem mld_no_crossing_falls_back_to_deepest
    (Temp : List (List (Option ℚ))) (z : List ℚ) (deltaT zRef : ℚ)
    (i : ℕ) (tcol : List (Option ℚ))
    (hcol : Temp.get? i = some tcol)
    (hnone : ∀ j < z.length, ratAbs (mld_dT z tcol zRef j) < deltaT)
    (Rho : List (List (Option ℚ))) (z2 : List ℚ) (deltaR zRef2 : ℚ)
    (i2 : ℕ) (rcol : List (Option ℚ))
    (hcol2 : Rho.get? i2 = some rcol)
    (hnone2 : ∀ j < z2.length, mld_dR z2 rcol zRef2 j < deltaR) :
    ((get_mld_deltaT Temp z deltaT zRef).get? i = some (ratAbs (npMin z)) ∧
      ∀ x ∈ z, npMin z ≤ x) ∧
    ((get_mld_deltaR Rho z2 deltaR zRef2).get? i2 = some (ratAbs (npMin z2)) ∧
      ∀ x ∈ z2, npMin z2 ≤ x) := by
  refine ⟨⟨?t1, fun x hx => npMin_le z x hx⟩, ⟨?t2, fun x hx => npMin_le z2 x hx⟩⟩
  case t1 =>
    rw [get_mld_deltaT, List.get?_map, hcol, Option.map_some']
    have hfilter : (List.range z.length).filter
        (fun j => decide (deltaT ≤ ratAbs (mld_dT z tcol zRef j))) = [] := by
      apply filter_range_eq_nil
      intro j hj hpj
      exact absurd (of_decide_eq_true hpj) (not_le.mpr (hnone j hj))
    unfold get_mld_deltaT_step
    rw [hfilter]
    simp
  case t2 =>
    rw [get_mld_deltaR, List.get?_map, hcol2, Option.map_some']
    have hfilter : (List.range z2.length).filter
        (fun j => decide (deltaR ≤ mld_dR z2 rcol zRef2 j)) = [] := by
      apply filter_range_eq_nil
      intro j hj hpj
      exact absurd (of_decide_eq_true hpj) (not_le.mpr (hnone2 j hj))
    unfold get_mld_deltaR_step
    rw [hfilter]
    simp

/-- Witness for C3 at a concrete profile uniformly within the threshold of the
reference value. -/
theorem mld_no_crossing_falls_back_to_deepest_witness :
    ((get_mld_deltaT [[some 18, some (37/2), some 19, some 19]]
        [-30, -20, -10, -5] 2 (-10)).get? 0 =
      some (ratAbs (npMin [-30, -20, -10, -5])) ∧
      ∀ x ∈ ([-30, -20, -10, -5] : List ℚ), npMin [-30, -20, -10, -5] ≤ x) ∧
    ((get_mld_deltaR [[some 1026, some 1026, some 1026, some 1026]]
        [-30, -20, -10, -5] (3/100) (-10)).get? 0 =
      some (ratAbs (npMin [-30, -20, -10, -5])) ∧
      ∀ x ∈ ([-30, -20, -10, -5] : List ℚ), npMin [-30, -20, -10, -5] ≤ x) := by
  refine mld_no_crossing_falls_back_to_deepest
    [[some 18, some (37/2), some 19, some 19]] [-30, -20, -10, -5] 2 (-10) 0
    [some 18, some (37/2), some 19, some 19] rfl ?h1
    [[some 1026, some 1026, some 1026, some 1026]] [-30, -20, -10, -5] (3/100) (-10) 0
    [some 1026, some 1026, some 1026, some 1026] rfl ?h2
  case h1 =>
    intro j hj
    have hj4 : j < 4 := by simpa using hj
    clear hj
    interval_cases j <;> norm_num [mld_dT, npArgmin, argminAux, ratAbs, sub?]
  case h2 =>
    intro j hj
    have hj4 : j < 4 := by simpa using hj
    clear hj
    interval_cases j <;> norm_num [mld_dR, npArgmin, argminAux, ratAbs, sub?]


/-! ## argmax helper lemmas -/

/-- Shifting all scanned values by a constant does not change `argmaxAux`. -/
lemma argmaxAux_map_add_const (c : ℚ) :
    ∀ (l : List ℚ) (i best : ℕ) (bv : ℚ),
      argmaxAux (l.map (fun x => x + c)) i best (bv + c) = argmaxAux l i best bv
  | [], _, _, _ => rfl
  | x :: xs, i, best, bv => by
    rw [List.map_cons]
    by_cases h : bv < x
    · rw [argmaxAux, argmaxAux, if_pos (by linarith), if_pos h]
      exact argmaxAux_map_add_const c xs (i + 1) i x
    · rw [argmaxAux, argmaxAux, if_neg (fun hc => h (by linarith)), if_neg h]
      exact argmaxAux_map_add_const c xs (i + 1) best bv

/-- Shifting all values by a constant does not change `np.argmax`. -/
lemma npArgmax_map_add_const (l : List ℚ) (c : ℚ) :
    npArgmax (l.map (fun x => x + c)) = npArgmax l := by
  cases l with
  | nil => rfl
  | cons x xs => exact argmaxAux_map_add_const c xs 1 0 x

/-- On a strictly increasing tail, `argmaxAux` lands on the last index. -/
lemma argmaxAux_strict (f : ℕ → ℚ) (hf : ∀ j, f j < f (j + 1)) :
    ∀ (m s i best : ℕ) (bv : ℚ), bv < f s →
      argmaxAux ((List.range' s m).map f) i best bv =
        if m = 0 then best else i + m - 1
  | 0, s, i, best, bv, hbv => rfl
  | m + 1, s, i, best, bv, hbv => by
    have hr : List.range' s (m + 1) = s :: List.range' (s + 1) m := rfl
    rw [hr, List.map_cons, argmaxAux, if_pos hbv]
    rw [argmaxAux_strict f hf m (s + 1) (i + 1) i (f s) (hf s)]
    rcases Nat.eq_zero_or_pos m with rfl | hm
    · simp
    · rw [if_neg (by omega), if_neg (by omega)]
      omega

/-- On a strictly increasing vector of length `n`, `np.argmax` selects the
last index `n - 1`. -/
lemma npArgmax_strict (f : ℕ → ℚ) (hf : ∀ j, f j < f (j + 1)) (n : ℕ) (hn : 0 < n) :
    npArgmax ((List.range n).map f) = n - 1 := by
  obtain ⟨m, rfl⟩ : ∃ m, n = m + 1 := ⟨n - 1, by omega⟩
  have hr : List.range (m + 1) = 0 :: List.range' 1 m := by
    rw [List.range_eq_range']
    rfl
  rw [hr, List.map_cons, npArgmax]
  rw [argmaxAux_strict f hf m 1 1 0 (f 0) (hf 0)]
  rcases Nat.eq_zero_or_pos m with rfl | hm
  · rfl
  · rw [if_neg (by omega)]
    omega

/-- `getD` through a constant shift, for an in-range index. -/
lemma getD_map_add (col : List ℚ) (c : ℚ) (j : ℕ) (hj : j < col.length) :
    (col.map (fun x => x + c)).getD j 0 = col.getD j 0 + c := by
  rw [List.getD_eq_getElem _ _ (by simpa using hj), List.getD_eq_getElem _ _ hj,
    List.getElem_map]

/-- Adjacent strict increase implies monotonicity of `getD` values. -/
lemma getD_mono_of_adjacent (z : List ℚ)
    (hz : ∀ j, j + 1 < z.length → z.getD j 0 < z.getD (j + 1) 0) :
    ∀ a b : ℕ, a ≤ b → b < z.length → z.getD a 0 ≤ z.getD b 0 := by
  intro a b
  induction b with
  | zero =>
    intro hab _
    have : a = 0 := by omega
    subst this
    exact le_refl _
  | succ m ih =>
    intro hab hb
    by_cases hh : a = m + 1
    · subst hh
      exact le_refl _
    · have h1 : z.getD a 0 ≤ z.getD m 0 := ih (by omega) (by omega)
      have h2 : z.getD m 0 < z.getD (m + 1) 0 := hz m hb
      linarith

/-! ## Claim C5: stratification maximum, shift invariance and flat tie-break -/

/-- C5: the boundary-layer depth from `get_bld_maxNN` is unchanged when a
constant `c` is added to the whole stratification column of a time step (in
exact arithmetic the location of the maximum never moves under a constant
shift, so the proviso of the claim holds automatically); and on a constant
(flat) column the routine selects the shallowest level, i.e. the last index
`nz - 1`, which under the bottom-to-top depth ordering hypothesis `hz3` is
the largest (shallowest, negative-down) depth value. -/
theorem bld_maxNN_shift_invariant_and_flat_tiebreak
    (NN NN2 : List (List ℚ)) (z : List ℚ) (i i2 : ℕ) (col : List ℚ) (c : ℚ)
    (hcol : NN.get? i = some col)
    (hcol2 : NN2.get? i2 = some (col.map (fun x => x + c)))
    (hlen : col.length = z.length)
    (NN3 : List (List ℚ)) (z3 : List ℚ) (i3 : ℕ) (col3 : List ℚ) (v : ℚ)
    (hcol3 : NN3.get? i3 = some col3)
    (hlen3 : col3.length = z3.length)
    (hflat : ∀ j < col3.length, col3.getD j 0 = v)
    (hz3 : ∀ j, j + 1 < z3.length → z3.getD j 0 < z3.getD (j + 1) 0)
    (hz3n : 0 < z3.length) :
    (get_bld_maxNN NN2 z).get? i2 = (get_bld_maxNN NN z).get? i ∧
    (get_bld_maxNN NN3 z3).get? i3 = some (ratAbs (z3.getD (z3.length - 1) 0)) ∧
    (∀ j < z3.length, z3.getD j 0 ≤ z3.getD (z3.length - 1) 0) := by
  refine ⟨?inv, ?flat, fun j hj => getD_mono_of_adjacent z3 hz3 j (z3.length - 1)
    (by omega) (by omega)⟩
  case inv =>
    rw [get_bld_maxNN, get_bld_maxNN, List.get?_map, List.get?_map, hcol, hcol2,
      Option.map_some', Option.map_some']
    have hstep : get_bld_maxNN_step z (col.map (fun x => x + c)) =
        get_bld_maxNN_step z col := by
      unfold get_bld_maxNN_step
      have hlist : (List.range z.length).map
          (fun j => (col.map (fun x => x + c)).getD j 0 + (j : ℚ) * noiseUnit) =
          ((List.range z.length).map
            (fun j => col.getD j 0 + (j : ℚ) * noiseUnit)).map (fun x => x + c) := by
        rw [List.map_map]
        apply List.map_congr_left
        intro j hj
        have hj2 : j < col.length := by
          rw [hlen]
          exact List.mem_range.mp hj
        simp only [Function.comp_apply, getD_map_add col c j hj2]
        ring
      rw [hlist, npArgmax_map_add_const]
    rw [hstep]
  case flat =>
    rw [get_bld_maxNN, List.get?_map, hcol3, Option.map_some']
    have hstep : get_bld_maxNN_step z3 col3 = z3.getD (z3.length - 1) 0 := by
      unfold get_bld_maxNN_step
      have hlist : (List.range z3.length).map
          (fun j => col3.getD j 0 + (j : ℚ) * noiseUnit) =
          (List.range z3.length).map (fun j : ℕ => v + (j : ℚ) * noiseUnit) := by
        apply List.map_congr_left
        intro j hj
        rw [hflat j (by rw [hlen3]; exact List.mem_range.mp hj)]
      rw [hlist, npArgmax_strict (fun j : ℕ => v + (j : ℚ) * noiseUnit)
        (fun j => by push_cast; norm_num [noiseUnit]) z3.length hz3n]
    rw [hstep]

/-- Witness for C5: a shifted column (`+2`) and a flat column on a three-level
grid. -/
theorem bld_maxNN_shift_invariant_and_flat_tiebreak_witness :
    (get_bld_maxNN [[7, 11, 6]] [-3, -2, -1]).get? 0 =
      (get_bld_maxNN [[5, 9, 4]] [-3, -2, -1]).get? 0 ∧
    (get_bld_maxNN [[4, 4, 4]] [-3, -2, -1]).get? 0 =
      some (ratAbs (([-3, -2, -1] : List ℚ).getD (([-3, -2, -1] : List ℚ).length - 1) 0)) ∧
    (∀ j < ([-3, -2, -1] : List ℚ).length,
      ([-3, -2, -1] : List ℚ).getD j 0 ≤
        ([-3, -2, -1] : List ℚ).getD (([-3, -2, -1] : List ℚ).length - 1) 0) := by
  refine bld_maxNN_shift_invariant_and_flat_tiebreak
    [[5, 9, 4]] [[7, 11, 6]] [-3, -2, -1] 0 0 [5, 9, 4] 2 rfl (by norm_num) (by norm_num)
    [[4, 4, 4]] [-3, -2, -1] 0 [4, 4, 4] 4 rfl (by norm_num) ?hflat ?hz (by norm_num)
  case hflat =>
    intro j hj
    have hj3 : j < 3 := by simpa using hj
    clear hj
    interval_cases j <;> norm_num
  case hz =>
    intro j hj
    have hj3 : j < 2 := by
      have : j + 1 < 3 := by simpa using hj
      omega
    clear hj
    interval_cases j <;> norm_num

/-! ## Claim C1: no-crossing fallback of the threshold BLD routines -/

/-- C1 (code bug): at a time step where no level (excluding the deepest) is
below the background value, `get_bld_tke` correctly reports the shallowest
level depth `|z[0]|`, but `get_bld_nuh` executes `bld[i] = z[0]` with the
local variable `bld` still undefined (only `bld_val` exists at that point of
`diags.py`), raising `UnboundLocalError` instead of returning — modelled here
by `none`. -/
theorem bld_nuh_fallback_raises_tke_returns :
    get_bld_nuh [[1, 1, 1]] [-3, -2, -1] (1 / 100000) = none ∧
    get_bld_tke [[1, 1, 1]] [-3, -2, -1] (1 / 10000000) = [3] := by
  have hidx1 : bld_idxlist [-3, -2, -1] [1, 1, 1] (1 / 100000) = [] := by
    norm_num [bld_idxlist, List.range_succ, List.filter_append]
  have hidx2 : bld_idxlist [-3, -2, -1] [1, 1, 1] (1 / 10000000) = [] := by
    norm_num [bld_idxlist, List.range_succ, List.filter_append]
  constructor
  · have hstep : get_bld_nuh_step [-3, -2, -1] [1, 1, 1] (1 / 100000) = none := by
      simp only [get_bld_nuh_step]
      rw [hidx1]
      simp
    rw [get_bld_nuh, optMapL, hstep]
    rfl
  · have hstep : get_bld_tke_step [-3, -2, -1] [1, 1, 1] (1 / 10000000) = -3 := by
      simp only [get_bld_tke_step]
      rw [hidx2]
      norm_num
    rw [get_bld_tke, List.map_cons, List.map_nil, hstep]
    norm_num [ratAbs]

/-! ## Claim C4: threshold BLD interpolation formula -/

/-- The scan state of the interpolation branch: when level `m` qualifies
(`col[m] < bg`, `m` not within one level of the bottom) and no deeper level
qualifies, the index list is nonempty with maximum `m`. -/
lemma bld_idxlist_max (z col : List ℚ) (bg : ℚ) (m : ℕ)
    (hmcol : m < col.length)
    (hmz : m + 2 < z.length)
    (hqual : col.getD m 0 < bg)
    (hno : ∀ j, m < j → j < col.length → j + 1 < z.length → ¬ col.getD j 0 < bg) :
    bld_idxlist z col bg ≠ [] ∧ (bld_idxlist z col bg).foldl max 0 = m := by
  have hmem : m ∈ bld_idxlist z col bg := by
    unfold bld_idxlist
    simp only [List.mem_filter, List.mem_range, decide_eq_true_eq]
    exact ⟨⟨hmcol, hqual⟩, by omega⟩
  have hub : ∀ x ∈ bld_idxlist z col bg, x ≤ m := by
    intro x hx
    unfold bld_idxlist at hx
    simp only [List.mem_filter, List.mem_range, decide_eq_true_eq] at hx
    by_contra hgt
    exact hno x (by omega) hx.1.1 hx.2 hx.1.2
  exact ⟨List.ne_nil_of_mem hmem,
    foldl_max_eq _ 0 (Nat.zero_le m) (Or.inl hmem) hub⟩

/-- C4: when qualifying levels exist and the deepest qualifying level `m` is
not within one level of the profile bottom, both threshold boundary-layer
routines return the linear interpolation
`z[m+1] - (z[m+1] - z[m]) * (col[m+1] - crit) / (col[m+1] - col[m])`
between level `m` and the adjacent level `m+1` (the routines report its
magnitude); and when the column is affine in depth (`col = a*z + b`) with the
critical value attained at depth `d` (`a*d + b = crit`), the computed depth is
exactly the analytic crossing point `d`. -/
theorem bld_threshold_interpolation
    (z col : List ℚ) (bg : ℚ) (m : ℕ)
    (hmcol : m < col.length)
    (hmz : m + 2 < z.length)
    (hqual : col.getD m 0 < bg)
    (hno : ∀ j, m < j → j < col.length → j + 1 < z.length → ¬ col.getD j 0 < bg)
    (z2 col2 : List ℚ) (bg2 a b d : ℚ) (m2 : ℕ)
    (hmcol2 : m2 < col2.length)
    (hmz2 : m2 + 2 < z2.length)
    (hqual2 : col2.getD m2 0 < bg2)
    (hno2 : ∀ j, m2 < j → j < col2.length → j + 1 < z2.length → ¬ col2.getD j 0 < bg2)
    (ha : a ≠ 0)
    (hzz : z2.getD m2 0 ≠ z2.getD (m2 + 1) 0)
    (haff1 : col2.getD m2 0 = a * z2.getD m2 0 + b)
    (haff2 : col2.getD (m2 + 1) 0 = a * z2.getD (m2 + 1) 0 + b)
    (hd : a * d + b = bg2) :
    get_bld_nuh_step z col bg = some (z.getD (m + 1) 0 -
      (z.getD (m + 1) 0 - z.getD m 0) * (col.getD (m + 1) 0 - bg) /
        (col.getD (m + 1) 0 - col.getD m 0)) ∧
    get_bld_tke_step z col bg = z.getD (m + 1) 0 -
      (z.getD (m + 1) 0 - z.getD m 0) * (col.getD (m + 1) 0 - bg) /
        (col.getD (m + 1) 0 - col.getD m 0) ∧
    get_bld_nuh [col] z bg = some [ratAbs (z.getD (m + 1) 0 -
      (z.getD (m + 1) 0 - z.getD m 0) * (col.getD (m + 1) 0 - bg) /
        (col.getD (m + 1) 0 - col.getD m 0))] ∧
    get_bld_tke [col] z bg = [ratAbs (z.getD (m + 1) 0 -
      (z.getD (m + 1) 0 - z.getD m 0) * (col.getD (m + 1) 0 - bg) /
        (col.getD (m + 1) 0 - col.getD m 0))] ∧
    get_bld_nuh_step z2 col2 bg2 = some d ∧
    get_bld_tke_step z2 col2 bg2 = d := by
  obtain ⟨hne, hfold⟩ := bld_idxlist_max z col bg m hmcol hmz hqual hno
  obtain ⟨hne2, hfold2⟩ := bld_idxlist_max z2 col2 bg2 m2 hmcol2 hmz2 hqual2 hno2
  have hstep1 : get_bld_nuh_step z col bg = some (z.getD (m + 1) 0 -
      (z.getD (m + 1) 0 - z.getD m 0) * (col.getD (m + 1) 0 - bg) /
        (col.getD (m + 1) 0 - col.getD m 0)) := by
    simp only [get_bld_nuh_step]
    rw [hfold, if_neg (by exact hne), if_pos hmz]
  have hstep2 : get_bld_tke_step z col bg = z.getD (m + 1) 0 -
      (z.getD (m + 1) 0 - z.getD m 0) * (col.getD (m + 1) 0 - bg) /
        (col.getD (m + 1) 0 - col.getD m 0) := by
    simp only [get_bld_tke_step]
    rw [hfold, if_neg (by exact hne), if_pos hmz]
  have hcross : z2.getD (m2 + 1) 0 -
      (z2.getD (m2 + 1) 0 - z2.getD m2 0) * (col2.getD (m2 + 1) 0 - bg2) /
        (col2.getD (m2 + 1) 0 - col2.getD m2 0) = d := by
    have hden : col2.getD (m2 + 1) 0 - col2.getD m2 0 =
        a * (z2.getD (m2 + 1) 0 - z2.getD m2 0) := by
      rw [haff1, haff2]
      ring
    have hzne : z2.getD (m2 + 1) 0 - z2.getD m2 0 ≠ 0 :=
      sub_ne_zero.mpr (Ne.symm hzz)
    rw [hden, haff2, ← hd]
    have hne3 : a * (z2.getD (m2 + 1) 0 - z2.getD m2 0) ≠ 0 := mul_ne_zero ha hzne
    have key : (z2.getD (m2 + 1) 0 - z2.getD m2 0) *
        (a * z2.getD (m2 + 1) 0 + b - (a * d + b)) /
          (a * (z2.getD (m2 + 1) 0 - z2.getD m2 0)) = z2.getD (m2 + 1) 0 - d := by
      rw [div_eq_iff hne3]
      ring
    rw [key]
    ring
  have hstep3 : get_bld_nuh_step z2 col2 bg2 = some d := by
    simp only [get_bld_nuh_step]
    rw [hfold2, if_neg (by exact hne2), if_pos hmz2, hcross]
  have hstep4 : get_bld_tke_step z2 col2 bg2 = d := by
    simp only [get_bld_tke_step]
    rw [hfold2, if_neg (by exact hne2), if_pos hmz2]
    exact hcross
  refine ⟨hstep1, hstep2, ?r1, ?r2, hstep3, hstep4⟩
  case r1 =>
    rw [get_bld_nuh]
    rw [show optMapL [col] (fun c => get_bld_nuh_step z c bg) =
      some [z.getD (m + 1) 0 -
        (z.getD (m + 1) 0 - z.getD m 0) * (col.getD (m + 1) 0 - bg) /
          (col.getD (m + 1) 0 - col.getD m 0)] from by
        rw [optMapL, hstep1]
        rfl]
    rfl
  case r2 =>
    rw [get_bld_tke, List.map_cons, List.map_nil, hstep2]

/-- Witness for C4: a crossing between levels 1 and 2 of a five-level grid,
and an affine column `col = -z` crossing `bg2 = 5/2` exactly at depth
`d = -5/2`. -/
theorem bld_threshold_interpolation_witness :
    get_bld_nuh_step [-1, -2, -3, -4, -5]
      [1 / 1000000, 1 / 1000000, 2 / 100000, 3 / 100000, 4 / 100000] (1 / 100000) =
      some (([-1, -2, -3, -4, -5] : List ℚ).getD 2 0 -
        (([-1, -2, -3, -4, -5] : List ℚ).getD 2 0 - ([-1, -2, -3, -4, -5] : List ℚ).getD 1 0) *
          (([1 / 1000000, 1 / 1000000, 2 / 100000, 3 / 100000, 4 / 100000] : List ℚ).getD 2 0 - 1 / 100000) /
          (([1 / 1000000, 1 / 1000000, 2 / 100000, 3 / 100000, 4 / 100000] : List ℚ).getD 2 0 -
            ([1 / 1000000, 1 / 1000000, 2 / 100000, 3 / 100000, 4 / 100000] : List ℚ).getD 1 0)) ∧
    get_bld_tke_step [-1, -2, -3, -4, -5]
      [1 / 1000000, 1 / 1000000, 2 / 100000, 3 / 100000, 4 / 100000] (1 / 100000) =
      ([-1, -2, -3, -4, -5] : List ℚ).getD 2 0 -
        (([-1, -2, -3, -4, -5] : List ℚ).getD 2 0 - ([-1, -2, -3, -4, -5] : List ℚ).getD 1 0) *
          (([1 / 1000000, 1 / 1000000, 2 / 100000, 3 / 100000, 4 / 100000] : List ℚ).getD 2 0 - 1 / 100000) /
          (([1 / 1000000, 1 / 1000000, 2 / 100000, 3 / 100000, 4 / 100000] : List ℚ).getD 2 0 -
            ([1 / 1000000, 1 / 1000000, 2 / 100000, 3 / 100000, 4 / 100000] : List ℚ).getD 1 0) ∧
    get_bld_nuh [[1 / 1000000, 1 / 1000000, 2 / 100000, 3 / 100000, 4 / 100000]]
      [-1, -2, -3, -4, -5] (1 / 100000) =
      some [ratAbs (([-1, -2, -3, -4, -5] : List ℚ).getD 2 0 -
        (([-1, -2, -3, -4, -5] : List ℚ).getD 2 0 - ([-1, -2, -3, -4, -5] : List ℚ).getD 1 0) *
          (([1 / 1000000, 1 / 1000000, 2 / 100000, 3 / 100000, 4 / 100000] : List ℚ).getD 2 0 - 1 / 100000) /
          (([1 / 1000000, 1 / 1000000, 2 / 100000, 3 / 100000, 4 / 100000] : List ℚ).getD 2 0 -
            ([1 / 1000000, 1 / 1000000, 2 / 100000, 3 / 100000, 4 / 100000] : List ℚ).getD 1 0))] ∧
    get_bld_tke [[1 / 1000000, 1 / 1000000, 2 / 100000, 3 / 100000, 4 / 100000]]
      [-1, -2, -3, -4, -5] (1 / 100000) =
      [ratAbs (([-1, -2, -3, -4, -5] : List ℚ).getD 2 0 -
        (([-1, -2, -3, -4, -5] : List ℚ).getD 2 0 - ([-1, -2, -3, -4, -5] : List ℚ).getD 1 0) *
          (([1 / 1000000, 1 / 1000000, 2 / 100000, 3 / 100000, 4 / 100000] : List ℚ).getD 2 0 - 1 / 100000) /
          (([1 / 1000000, 1 / 1000000, 2 / 100000, 3 / 100000, 4 / 100000] : List ℚ).getD 2 0 -
            ([1 / 1000000, 1 / 1000000, 2 / 100000, 3 / 100000, 4 / 100000] : List ℚ).getD 1 0))] ∧
    get_bld_nuh_step [-1, -2, -3, -4, -5] [1, 2, 3, 4, 5] (5 / 2) = some (-5 / 2) ∧
    get_bld_tke_step [-1, -2, -3, -4, -5] [1, 2, 3, 4, 5] (5 / 2) = -5 / 2 := by
  refine bld_threshold_interpolation
    [-1, -2, -3, -4, -5] [1 / 1000000, 1 / 1000000, 2 / 100000, 3 / 100000, 4 / 100000]
    (1 / 100000) 1 (by norm_num) (by norm_num) (by norm_num) ?hno
    [-1, -2, -3, -4, -5] [1, 2, 3, 4, 5] (5 / 2) (-1) 0 (-5 / 2) 1
    (by norm_num) (by norm_num) (by norm_num) ?hno2
    (by norm_num) (by norm_num) (by norm_num) (by norm_num) (by norm_num)
  case hno =>
    intro j h1 h2 h3
    have h5 : j < 5 := by simpa using h2
    interval_cases j <;> norm_num
  case hno2 =>
    intro j h1 h2 h3
    have h5 : j < 5 := by simpa using h2
    interval_cases j <;> norm_num


/-! ## Claim C6: attenuation factor branch structure and cutoffs -/

/-- C6: in all three integrators the per-(level, band) contribution factors as
(attenuation factor) times (bare exponential-decay contribution), where the
attenuation factor is `sinh(kdz)/kdz` strictly below the cutoff and `1` at or
above it; the cutoff is `10` in `_stokes_drift_kernel_dhh85` and `100` in
`stokes_drift_spec` and `stokes_drift_usp`. -/
theorem stokes_attenuation_cutoffs (omega zv dzv ws wa f df s : ℝ) :
    dhh85_kernel omega zv dzv ws wa =
      (if omega ^ 2 * dzv / gravity < 10 then
        Real.sinh (omega ^ 2 * dzv / gravity) / (omega ^ 2 * dzv / gravity) else 1) *
        dhh85_bare omega zv ws wa ∧
    spec_tmp f df s zv dzv =
      (if spec_factor2 f * dzv / 2 < 100 then
        Real.sinh (spec_factor2 f * dzv / 2) / (spec_factor2 f * dzv / 2) else 1) *
        spec_bare f df s zv ∧
    usp_tmp f zv dzv =
      (if spec_factor2 f * dzv / 2 < 100 then
        Real.sinh (spec_factor2 f * dzv / 2) / (spec_factor2 f * dzv / 2) else 1) *
        usp_bare f zv := by
  refine ⟨?k, ?s, ?u⟩
  case k =>
    simp only [dhh85_kernel, dhh85_bare]
    split_ifs
    · ring
    · ring
  case s =>
    simp only [spec_tmp, spec_bare]
    split_ifs
    · ring
    · ring
  case u =>
    simp only [usp_tmp, usp_bare]
    split_ifs
    · ring
    · ring

/-! ## Claim C8: single-level grid -/

/-- C8: a single-element depth array never makes `_get_grid` fail; it returns
the arbitrarily large thickness `1e6` (and `zi = z`), and with that thickness
the `kdz` terms of all three integrators land in the no-smoothing branch for
any frequency of practical size (`omega ≥ 0.01 rad/s`, `f ≥ 0.01 Hz`), so the
depth-averaging correction is disabled. -/
theorem single_level_grid_disables_averaging
    (a zv ws wa omega f df s : ℝ) (homega : 1 / 100 ≤ omega) (hf : 1 / 100 ≤ f) :
    grid_dz [a] = [1000000] ∧ grid_zi [a] = [a] ∧
    dhh85_kernel omega zv ((grid_dz [a]).getD 0 0) ws wa = dhh85_bare omega zv ws wa ∧
    spec_tmp f df s zv ((grid_dz [a]).getD 0 0) = spec_bare f df s zv ∧
    usp_tmp f zv ((grid_dz [a]).getD 0 0) = usp_bare f zv := by
  have h1 : grid_dz [a] = [1000000] := by simp [grid_dz]
  have h2 : grid_zi [a] = [a] := by simp [grid_zi]
  have hgd : (grid_dz [a]).getD 0 0 = 1000000 := by rw [h1]; rfl
  have homega2 : (1 / 100 : ℝ) ^ 2 ≤ omega ^ 2 := by nlinarith
  have hno1 : ¬ (omega ^ 2) * (1000000 : ℝ) / gravity < 10 := by
    rw [not_lt]
    simp only [gravity]
    rw [le_div_iff (by norm_num : (0 : ℝ) < 9.81)]
    nlinarith
  have hpf : (157 / 5000 : ℝ) ≤ Real.pi * f := by
    nlinarith [Real.pi_gt_d2]
  have hpf2 : (157 / 5000 : ℝ) ^ 2 ≤ (Real.pi * f) ^ 2 :=
    pow_le_pow_left (by norm_num) hpf 2
  have hno2 : ¬ spec_factor2 f * (1000000 : ℝ) / 2 < 100 := by
    rw [not_lt]
    simp only [spec_factor2, gravity]
    have key : 8 * Real.pi ^ 2 / 9.81 * f ^ 2 * (1000000 : ℝ) / 2 =
        (400000000 / 981) * (Real.pi * f) ^ 2 := by
      ring
    rw [key]
    nlinarith [hpf2]
  refine ⟨h1, h2, ?k, ?s, ?u⟩
  case k =>
    rw [hgd]
    simp only [dhh85_kernel, dhh85_bare]
    rw [if_neg hno1]
    ring
  case s =>
    rw [hgd]
    simp only [spec_tmp, spec_bare]
    rw [if_neg hno2]
  case u =>
    rw [hgd]
    simp only [usp_tmp, usp_bare]
    rw [if_neg hno2]

/-- Witness for C8 at `a = -5`, `omega = f = 0.01` and arbitrary scalars. -/
theorem single_level_grid_disables_averaging_witness :
    grid_dz [(-5 : ℝ)] = [1000000] ∧ grid_zi [(-5 : ℝ)] = [-5] ∧
    dhh85_kernel (1 / 100) (-2) ((grid_dz [(-5 : ℝ)]).getD 0 0) 10 1 =
      dhh85_bare (1 / 100) (-2) 10 1 ∧
    spec_tmp (1 / 100) (1 / 50) 3 (-2) ((grid_dz [(-5 : ℝ)]).getD 0 0) =
      spec_bare (1 / 100) (1 / 50) 3 (-2) ∧
    usp_tmp (1 / 100) (-2) ((grid_dz [(-5 : ℝ)]).getD 0 0) =
      usp_bare (1 / 100) (-2) :=
  single_level_grid_disables_averaging (-5) (-2) 10 1 (1 / 100) (1 / 100) (1 / 50) 3
    (by norm_num) (by norm_num)

/-! ## Claim C10: the f^-5 tail needs at least two depth levels -/

/-- `optMapL` succeeds when every element succeeds. -/
lemma optMapL_isSome {α β : Type} (l : List α) (f : α → Option β)
    (h : ∀ a ∈ l, (f a).isSome) : (optMapL l f).isSome := by
  induction l with
  | nil => rfl
  | cons x xs ih =>
    rw [optMapL]
    obtain ⟨y, hy⟩ := Option.isSome_iff_exists.mp (h x (List.mem_cons_self x xs))
    obtain ⟨ys, hys⟩ :=
      Option.isSome_iff_exists.mp (ih (fun a ha => h a (List.mem_cons_of_mem x ha)))
    rw [hy, hys]
    rfl

/-- Interface array length for a multi-level grid. -/
lemma grid_zi_length (z : List ℝ) (h : z.length ≠ 1) :
    (grid_zi z).length = z.length + 1 := by
  simp [grid_zi, h]

/-- Thickness array length for a multi-level grid. -/
lemma grid_dz_length (z : List ℝ) (h : z.length ≠ 1) :
    (grid_dz z).length = z.length := by
  simp [grid_dz, h]

/-- C10: for `nz ≥ 2` levels, `_get_grid` returns `zi` of length `nz + 1`, so
every access `zi[i+1]` with `i < nz` made by `stokes_drift_tail_fm5` is in
bounds and the tail routine succeeds; for a single-level depth array, `zi`
has length 1, the access `zi[1]` is out of bounds, and the tail routine (and
hence `stokes_drift_spec` with `tail_fm5 = True`) fails. -/
theorem tail_fm5_requires_two_levels (erfc : ℝ → ℝ) (z z2 : List ℝ)
    (sp xcmp ycmp freq : ℝ) (spl xcl ycl frl dfl : List ℝ)
    (h2 : 2 ≤ z.length) (h1 : z2.length = 1) :
    (grid_zi z).length = z.length + 1 ∧
    (∀ i < z.length, ((grid_zi z).get? (i + 1)).isSome) ∧
    (stokes_drift_tail_fm5 erfc z sp xcmp ycmp freq).isSome ∧
    (grid_zi z2).length = 1 ∧
    stokes_drift_tail_fm5 erfc z2 sp xcmp ycmp freq = none ∧
    stokes_drift_spec z2 spl xcl ycl frl dfl true erfc = none := by
  have hne : z.length ≠ 1 := by omega
  have hlen := grid_zi_length z hne
  have hlend := grid_dz_length z hne
  obtain ⟨a, rfl⟩ := List.length_eq_one.mp h1
  have hzi2 : grid_zi [a] = [a] := by simp [grid_zi]
  have hdz2 : grid_dz [a] = [1000000] := by simp [grid_dz]
  have htail2 : stokes_drift_tail_fm5 erfc [a] sp xcmp ycmp freq = none := by
    rw [stokes_drift_tail_fm5]
    rw [show List.range ([a] : List ℝ).length = [0] from rfl]
    rw [optMapL, optMapL]
    rw [hzi2, hdz2]
    rfl
  refine ⟨hlen, ?bounds, ?tail, by rw [hzi2]; simp, htail2, ?specnone⟩
  case bounds =>
    intro i hi
    rw [List.get?_eq_get (by omega : i + 1 < (grid_zi z).length)]
    rfl
  case tail =>
    rw [stokes_drift_tail_fm5]
    apply optMapL_isSome
    intro i hi
    have hilt : i < z.length := List.mem_range.mp hi
    rw [List.get?_eq_get (by omega : i < (grid_zi z).length),
      List.get?_eq_get (by omega : i + 1 < (grid_zi z).length),
      List.get?_eq_get (by omega : i < (grid_dz z).length)]
    rfl
  case specnone =>
    rw [stokes_drift_spec]
    simp only [htail2]
    rfl

/-- Witness for C10 on a two-level and a one-level grid. -/
theorem tail_fm5_requires_two_levels_witness :
    (grid_zi [-1, -2]).length = ([-1, -2] : List ℝ).length + 1 ∧
    (∀ i < ([-1, -2] : List ℝ).length, ((grid_zi [-1, -2]).get? (i + 1)).isSome) ∧
    (stokes_drift_tail_fm5 (fun _ => 0) [-1, -2] 1 1 0 (1 / 10)).isSome ∧
    (grid_zi [(-5 : ℝ)]).length = 1 ∧
    stokes_drift_tail_fm5 (fun _ => 0) [(-5 : ℝ)] 1 1 0 (1 / 10) = none ∧
    stokes_drift_spec [(-5 : ℝ)] [1] [1] [0] [1 / 10] [1 / 50] true (fun _ => 0) = none :=
  tail_fm5_requires_two_levels (fun _ => 0) [-1, -2] [(-5 : ℝ)] 1 1 0 (1 / 10)
    [1] [1] [0] [1 / 10] [1 / 50] (by norm_num) (by norm_num)


/-! ## sinh bounds -/

/-- Upper bound `sinh x ≤ x (1 + x)` on `(0, 1/2]`. -/
lemma sinh_le_linear (x : ℝ) (hx : 0 < x) (hx2 : x ≤ 1 / 2) :
    Real.sinh x ≤ x * (1 + x) := by
  have h1 : 1 - x ≤ Real.exp (-x) := by
    have := Real.add_one_le_exp (-x)
    linarith
  have hpos : (0 : ℝ) < 1 - x := by linarith
  have h2 : Real.exp x ≤ 1 / (1 - x) := by
    have h3 : Real.exp x * (1 - x) ≤ Real.exp x * Real.exp (-x) :=
      mul_le_mul_of_nonneg_left h1 (le_of_lt (Real.exp_pos x))
    rw [← Real.exp_add] at h3
    simp only [add_neg_cancel, Real.exp_zero] at h3
    rw [le_div_iff hpos]
    linarith
  rw [Real.sinh_eq]
  have h5 : 1 / (1 - x) - (1 - x) ≤ 2 * (x * (1 + x)) := by
    rw [div_sub' _ _ _ (ne_of_gt hpos), div_le_iff hpos]
    nlinarith [mul_nonneg (sq_nonneg x) (by linarith : (0 : ℝ) ≤ 1 - 2 * x)]
  linarith

/-- For `0 < x ≤ 1/2`, the attenuation factor `sinh x / x` lies strictly
between 1 and `1 + x`. -/
lemma sinh_div_self_bounds (x : ℝ) (hx : 0 < x) (hx2 : x ≤ 1 / 2) :
    1 < Real.sinh x / x ∧ Real.sinh x / x ≤ 1 + x := by
  constructor
  · rw [lt_div_iff hx, one_mul]
    exact Real.self_lt_sinh_iff.mpr hx
  · rw [div_le_iff hx]
    calc Real.sinh x ≤ x * (1 + x) := sinh_le_linear x hx hx2
    _ = (1 + x) * x := by ring

/-! ## Claim C9: partitioned Stokes drift at the surface -/

/-- C9 counterexample: for a single band (`f = 0.1 Hz`, unit x-component) on
the fine grid `z = [0, -0.001]`, the surface value returned by
`stokes_drift_usp` is `sinh(kdz)/kdz > 1`, not exactly the input surface
component 1: the attenuation factor at `z = 0` is not 1 for any positive
surface-layer thickness. -/
theorem usp_surface_not_exactly_input :
    ((stokes_drift_usp [0, -1 / 1000] [1 / 10] [1] [0]).1).getD 0 0 ≠ 1 := by
  have hpi2 : Real.pi ^ 2 < 10 := by
    nlinarith [Real.pi_lt_d2, Real.pi_pos]
  have hdz : (grid_dz [0, -1 / 1000]).getD 0 0 = 1 / 2000 := by
    norm_num [grid_dz]
  have hkdz : spec_factor2 (1 / 10) * (1 / 2000) / 2 = Real.pi ^ 2 / 490500 := by
    simp only [spec_factor2, gravity]
    ring
  have hkpos : (0 : ℝ) < Real.pi ^ 2 / 490500 := by positivity
  have hval : ((stokes_drift_usp [0, -1 / 1000] [1 / 10] [1] [0]).1).getD 0 0 =
      Real.sinh (Real.pi ^ 2 / 490500) / (Real.pi ^ 2 / 490500) := by
    simp only [stokes_drift_usp]
    rw [show List.range ([(0 : ℝ), -1 / 1000] : List ℝ).length = [0, 1] from rfl]
    rw [List.map_cons, List.getD_cons_zero]
    rw [show ([(1 : ℝ) / 10] : List ℝ).length = 1 from rfl, Finset.sum_range_one]
    rw [show (([(1 : ℝ) / 10] : List ℝ).getD 0 0) = 1 / 10 from rfl,
      show (([(0 : ℝ), -1 / 1000] : List ℝ).getD 0 0) = 0 from rfl,
      show (([(1 : ℝ)] : List ℝ).getD 0 0) = 1 from rfl]
    rw [hdz]
    simp only [usp_tmp]
    rw [hkdz, if_pos (by nlinarith [hkpos] : Real.pi ^ 2 / 490500 < 100)]
    simp
  rw [hval]
  have h1 : 1 < Real.sinh (Real.pi ^ 2 / 490500) / (Real.pi ^ 2 / 490500) := by
    rw [lt_div_iff hkpos, one_mul]
    exact Real.self_lt_sinh_iff.mpr hkpos
  exact ne_of_gt h1

/-- C9 amended: on a two-level grid with surface level `z = 0`, the surface
value returned by `stokes_drift_usp` for a single band equals the input
component multiplied by the attenuation factor `sinh(kdz)/kdz` evaluated at
the surface-layer half-thickness; for any positive thickness this factor is
strictly greater than 1 (so the output never equals the input exactly) and is
at most `1 + kdz`, so it tends to 1 as the grid is refined. -/
theorem usp_surface_attenuation_factor (z1 u v f : ℝ)
    (hz1 : z1 < 0) (hf : 0 < f)
    (hk : spec_factor2 f * (-z1 / 2) / 2 ≤ 1 / 2) :
    ((stokes_drift_usp [0, z1] [f] [u] [v]).1).getD 0 0 =
      Real.sinh (spec_factor2 f * (-z1 / 2) / 2) / (spec_factor2 f * (-z1 / 2) / 2) * u ∧
    ((stokes_drift_usp [0, z1] [f] [u] [v]).2).getD 0 0 =
      Real.sinh (spec_factor2 f * (-z1 / 2) / 2) / (spec_factor2 f * (-z1 / 2) / 2) * v ∧
    1 < Real.sinh (spec_factor2 f * (-z1 / 2) / 2) / (spec_factor2 f * (-z1 / 2) / 2) ∧
    Real.sinh (spec_factor2 f * (-z1 / 2) / 2) / (spec_factor2 f * (-z1 / 2) / 2) ≤
      1 + spec_factor2 f * (-z1 / 2) / 2 := by
  have hf2 : 0 < spec_factor2 f := by
    simp only [spec_factor2, gravity]
    positivity
  have hkpos : 0 < spec_factor2 f * (-z1 / 2) / 2 := by
    have : 0 < -z1 / 2 := by linarith
    positivity
  have hdz : (grid_dz [0, z1]).getD 0 0 = -z1 / 2 := by
    norm_num [grid_dz]
  have hbounds := sinh_div_self_bounds _ hkpos hk
  have htmp : usp_tmp f 0 (-z1 / 2) =
      Real.sinh (spec_factor2 f * (-z1 / 2) / 2) / (spec_factor2 f * (-z1 / 2) / 2) := by
    simp only [usp_tmp]
    rw [if_pos (by linarith : spec_factor2 f * (-z1 / 2) / 2 < 100)]
    rw [mul_zero, Real.exp_zero, mul_one]
  refine ⟨?us, ?vs, hbounds.1, hbounds.2⟩
  case us =>
    simp only [stokes_drift_usp]
    rw [show List.range ([(0 : ℝ), z1] : List ℝ).length = [0, 1] from rfl]
    rw [List.map_cons, List.getD_cons_zero,
      show ([f] : List ℝ).length = 1 from rfl, Finset.sum_range_one]
    rw [show (([f] : List ℝ).getD 0 0) = f from rfl,
      show (([(0 : ℝ), z1] : List ℝ).getD 0 0) = 0 from rfl,
      show (([u] : List ℝ).getD 0 0) = u from rfl]
    rw [hdz, htmp]
  case vs =>
    simp only [stokes_drift_usp]
    rw [show List.range ([(0 : ℝ), z1] : List ℝ).length = [0, 1] from rfl]
    rw [List.map_cons, List.getD_cons_zero,
      show ([f] : List ℝ).length = 1 from rfl, Finset.sum_range_one]
    rw [show (([f] : List ℝ).getD 0 0) = f from rfl,
      show (([(0 : ℝ), z1] : List ℝ).getD 0 0) = 0 from rfl,
      show (([v] : List ℝ).getD 0 0) = v from rfl]
    rw [hdz, htmp]

/-- Witness for the amended C9 at `z1 = -1`, `f = 0.1`, components `(1, 0)`. -/
theorem usp_surface_attenuation_factor_witness :
    ((stokes_drift_usp [0, -1] [1 / 10] [1] [0]).1).getD 0 0 =
      Real.sinh (spec_factor2 (1 / 10) * (-(-1) / 2) / 2) /
        (spec_factor2 (1 / 10) * (-(-1) / 2) / 2) * 1 ∧
    ((stokes_drift_usp [0, -1] [1 / 10] [1] [0]).2).getD 0 0 =
      Real.sinh (spec_factor2 (1 / 10) * (-(-1) / 2) / 2) /
        (spec_factor2 (1 / 10) * (-(-1) / 2) / 2) * 0 ∧
    1 < Real.sinh (spec_factor2 (1 / 10) * (-(-1) / 2) / 2) /
      (spec_factor2 (1 / 10) * (-(-1) / 2) / 2) ∧
    Real.sinh (spec_factor2 (1 / 10) * (-(-1) / 2) / 2) /
      (spec_factor2 (1 / 10) * (-(-1) / 2) / 2) ≤
      1 + spec_factor2 (1 / 10) * (-(-1) / 2) / 2 :=
  usp_surface_attenuation_factor (-1) 1 0 (1 / 10) (by norm_num) (by norm_num)
    (by
      simp only [spec_factor2, gravity]
      have key : 8 * Real.pi ^ 2 / 9.81 * (1 / 10 : ℝ) ^ 2 * (-(-1) / 2) / 2 =
          (2 / 981) * Real.pi ^ 2 := by ring
      rw [key]
      nlinarith [Real.pi_lt_d2, Real.pi_pos])


/-! ## Claim C7: depth decay of the parametric Stokes drift -/

/-- Bound `exp u ≤ 1 / (1 - u)` for `0 ≤ u < 1`. -/
lemma exp_le_inv_one_sub (u : ℝ) (h0 : 0 ≤ u) (h1 : u < 1) :
    Real.exp u ≤ 1 / (1 - u) := by
  have hpos : (0 : ℝ) < 1 - u := by linarith
  have h2 : 1 - u ≤ Real.exp (-u) := by
    have := Real.add_one_le_exp (-u)
    linarith
  have h3 : Real.exp u * (1 - u) ≤ Real.exp u * Real.exp (-u) :=
    mul_le_mul_of_nonneg_left h2 (Real.exp_pos u).le
  rw [← Real.exp_add] at h3
  simp only [add_neg_cancel, Real.exp_zero] at h3
  rw [le_div_iff hpos]
  linarith

/-- Cubic lower bound `x + x^3/6 < sinh x` for `x > 0`, from the degree-4
Taylor polynomial of `exp`. -/
lemma sinh_gt_cubic (x : ℝ) (hx : 0 < x) : x + x ^ 3 / 6 < Real.sinh x := by
  have hSpos : (0 : ℝ) < 1 + x + x ^ 2 / 2 + x ^ 3 / 6 + x ^ 4 / 24 := by positivity
  have hSexp : 1 + x + x ^ 2 / 2 + x ^ 3 / 6 + x ^ 4 / 24 ≤ Real.exp x := by
    have h := Real.sum_le_exp_of_nonneg hx.le 5
    have hsum : ∑ i in Finset.range 5, x ^ i / (Nat.factorial i : ℝ) =
        1 + x + x ^ 2 / 2 + x ^ 3 / 6 + x ^ 4 / 24 := by
      rw [Finset.sum_range_succ, Finset.sum_range_succ, Finset.sum_range_succ,
        Finset.sum_range_succ, Finset.sum_range_one]
      norm_num [Nat.factorial]
    rw [hsum] at h
    exact h
  have hinv : (Real.exp x)⁻¹ ≤ (1 + x + x ^ 2 / 2 + x ^ 3 / 6 + x ^ 4 / 24)⁻¹ :=
    inv_le_inv_of_le hSpos hSexp
  have hsinh : (1 + x + x ^ 2 / 2 + x ^ 3 / 6 + x ^ 4 / 24 -
      (1 + x + x ^ 2 / 2 + x ^ 3 / 6 + x ^ 4 / 24)⁻¹) / 2 ≤ Real.sinh x := by
    rw [Real.sinh_eq, Real.exp_neg]
    have h1 : 1 + x + x ^ 2 / 2 + x ^ 3 / 6 + x ^ 4 / 24 ≤ Real.exp x := hSexp
    linarith
  have hpoly : 2 * (x + x ^ 3 / 6) < 1 + x + x ^ 2 / 2 + x ^ 3 / 6 + x ^ 4 / 24 -
      (1 + x + x ^ 2 / 2 + x ^ 3 / 6 + x ^ 4 / 24)⁻¹ := by
    have hkey : (2 * (x + x ^ 3 / 6)) * (1 + x + x ^ 2 / 2 + x ^ 3 / 6 + x ^ 4 / 24) <
        (1 + x + x ^ 2 / 2 + x ^ 3 / 6 + x ^ 4 / 24) ^ 2 - 1 := by
      nlinarith [pow_pos hx 6, pow_pos hx 8]
    have hq : (1 + x + x ^ 2 / 2 + x ^ 3 / 6 + x ^ 4 / 24) ^ 2 - 1 =
        (1 + x + x ^ 2 / 2 + x ^ 3 / 6 + x ^ 4 / 24 -
          (1 + x + x ^ 2 / 2 + x ^ 3 / 6 + x ^ 4 / 24)⁻¹) *
          (1 + x + x ^ 2 / 2 + x ^ 3 / 6 + x ^ 4 / 24) := by
      field_simp
      ring
    rw [hq] at hkey
    exact lt_of_mul_lt_mul_right hkey hSpos.le
  linarith

/-- Positivity of the DHH85 spectrum for positive frequency, wind speed and
wave age (both branches of the peak-enhancement coefficient). -/
lemma dhh85_spec_pos (omega ws wa : ℝ) (hw : 0 < omega) (hws : 0 < ws) (hwa : 0 < wa) :
    0 < dhh85_spec omega ws wa := by
  simp only [dhh85_spec]
  have hiwa : (0 : ℝ) < 1 / wa := by positivity
  have hgamma1 : (0 : ℝ) <
      (if 1 / wa ≤ 1 then (1.7 : ℝ) else 1.7 + 6 * Real.logb 10 (1 / wa)) := by
    split_ifs with h
    · norm_num
    · have hlog : 0 ≤ Real.logb 10 (1 / wa) :=
        Real.logb_nonneg (by norm_num) (le_of_lt (lt_of_not_le h))
      linarith
  have halpha : (0 : ℝ) < 0.006 * (1 / wa) ^ (0.55 : ℝ) := by
    have := Real.rpow_pos_of_pos hiwa (0.55 : ℝ)
    nlinarith
  have homegap : (0 : ℝ) < gravity * (1 / wa) / ws := by
    simp only [gravity]
    positivity
  have hgravsq : (0 : ℝ) < gravity ^ 2 := by
    simp only [gravity]
    norm_num
  apply mul_pos
  apply mul_pos
  · exact div_pos (mul_pos halpha hgravsq) (mul_pos homegap (by positivity))
  · exact Real.exp_pos _
  · exact Real.rpow_pos_of_pos hgamma1 _

/-- The attenuation quotient `sinh x / x` is nonnegative for every real `x`. -/
lemma sinh_div_self_nonneg (x : ℝ) : 0 ≤ Real.sinh x / x := by
  rcases lt_trichotomy x 0 with h | rfl | h
  · have hs : Real.sinh x < 0 := by
      rw [← Real.sinh_zero]
      exact Real.sinh_lt_sinh.mpr h
    exact (div_pos_of_neg_of_neg hs h).le
  · simp
  · have hs : 0 < Real.sinh x := by
      rw [← Real.sinh_zero]
      exact Real.sinh_lt_sinh.mpr h
    exact (div_pos hs h).le

/-- The kernel attenuation factor is nonnegative in both branches. -/
lemma zfilter_nonneg (k : ℝ) : 0 ≤ (if k < 10 then Real.sinh k / k else 1) := by
  split_ifs
  · exact sinh_div_self_nonneg k
  · norm_num

/-- The DHH85 kernel is nonnegative. -/
lemma dhh85_kernel_nonneg (omega zv dzv ws wa : ℝ)
    (hw : 0 < omega) (hws : 0 < ws) (hwa : 0 < wa) :
    0 ≤ dhh85_kernel omega zv dzv ws wa := by
  simp only [dhh85_kernel]
  have h1 := dhh85_spec_pos omega ws wa hw hws hwa
  have h2 := zfilter_nonneg (omega ^ 2 * dzv / gravity)
  have h3 : (0 : ℝ) < gravity := by simp only [gravity]; norm_num
  have h4 : (0 : ℝ) ≤ 2 * (dhh85_spec omega ws wa * omega ^ 3) := by positivity
  exact div_nonneg (mul_nonneg (mul_nonneg h4 h2) (Real.exp_pos _).le) h3.le

/-- At a fixed layer thickness the DHH85 kernel is monotone in depth. -/
lemma dhh85_kernel_mono_z (omega za zb dzv ws wa : ℝ)
    (hw : 0 < omega) (hws : 0 < ws) (hwa : 0 < wa) (hzab : zb ≤ za) :
    dhh85_kernel omega zb dzv ws wa ≤ dhh85_kernel omega za dzv ws wa := by
  simp only [dhh85_kernel]
  have h1 := dhh85_spec_pos omega ws wa hw hws hwa
  have h2 := zfilter_nonneg (omega ^ 2 * dzv / gravity)
  have h3 : (0 : ℝ) < gravity := by simp only [gravity]; norm_num
  have hexp : Real.exp (2 * omega ^ 2 * zb / gravity) ≤
      Real.exp (2 * omega ^ 2 * za / gravity) := by
    apply Real.exp_le_exp.mpr
    apply div_le_div_of_nonneg_right ?hnum h3.le
    case hnum => nlinarith
  apply div_le_div_of_nonneg_right ?hh h3.le
  case hh =>
    apply mul_le_mul_of_nonneg_left hexp
    positivity

/-- `getD` through a `range`-`map` construction, for an in-range index. -/
lemma getD_map_range (f : ℕ → ℝ) (n i : ℕ) (h : i < n) :
    ((List.range n).map f).getD i 0 = f i := by
  rw [List.getD_eq_getElem _ _ (by simpa using h), List.getElem_map, List.getElem_range]

/-- The `i`-th value of `stokes_drift_dhh85` as an explicit frequency sum. -/
lemma stokes_dhh85_getD (z : List ℝ) (ws wa omin omax : ℝ) (n : ℕ) (i : ℕ)
    (h : i < z.length) :
    (stokes_drift_dhh85 z ws wa omin omax n).getD i 0 =
      ∑ j in Finset.range n, (omax - omin) / ((n : ℝ) - 1) *
        dhh85_kernel (omin + (j : ℝ) * ((omax - omin) / ((n : ℝ) - 1))) (z.getD i 0)
          ((grid_dz z).getD i 0) ws wa := by
  simp only [stokes_drift_dhh85]
  exact getD_map_range _ _ _ h

/-- The central numeric inequality for the C7 counterexample grid, in the
variable `t = omega^2` over the integration range `[1/100, 400]`:
`1 + k0 < (1 + k1^2/6)(1 - u)` with `k0 = t/6.54e9`, `k1 = t*(19999999/1.962e10)`
and `u = 2t/9.81e9`. -/
lemma c7_core (t : ℝ) (h1 : 1 / 100 ≤ t) (h2 : t ≤ 400) :
    (1 + t * (1 / 6540000000)) <
      (1 + (t * (19999999 / 19620000000)) ^ 2 / 6) * (1 - t * (2 / 9810000000)) := by
  have h3 : t ^ 3 ≤ 400 * t ^ 2 := by nlinarith [sq_nonneg t]
  have h4 : t / 100 ≤ t ^ 2 := by nlinarith
  nlinarith [h3, h4]

/-- On the counterexample grid `z = [-1e-9, -2e-9, -0.02]` (thicknesses
`dz0 = 1.5e-9`, `dz1 ≈ 0.01`), the kernel at the deeper level 1 strictly
exceeds the kernel at the shallower level 0 for every frequency of the
default sweep: the much larger `sinh(kdz)/kdz` factor of level 1 outweighs
the (tiny) additional exponential decay. -/
lemma c7_kernel_lt (omega : ℝ) (h1 : 1 / 10 ≤ omega) (h2 : omega ≤ 20) :
    dhh85_kernel omega (-1 / 1000000000) (3 / 2000000000) 10 1 <
      dhh85_kernel omega (-2 / 1000000000) (19999999 / 2000000000) 10 1 := by
  have hw : 0 < omega := by linarith
  have ht1 : 1 / 100 ≤ omega ^ 2 := by nlinarith
  have ht2 : omega ^ 2 ≤ 400 := by nlinarith
  have hk0 : omega ^ 2 * (3 / 2000000000) / gravity = omega ^ 2 * (1 / 6540000000) := by
    simp only [gravity]
    ring
  have hk1 : omega ^ 2 * (19999999 / 2000000000) / gravity =
      omega ^ 2 * (19999999 / 19620000000) := by
    simp only [gravity]
    ring
  have hk0pos : 0 < omega ^ 2 * (1 / 6540000000) := by positivity
  have hk1pos : 0 < omega ^ 2 * (19999999 / 19620000000) := by positivity
  have hk0lt10 : omega ^ 2 * (3 / 2000000000) / gravity < 10 := by
    rw [hk0]
    nlinarith
  have hk1lt10 : omega ^ 2 * (19999999 / 2000000000) / gravity < 10 := by
    rw [hk1]
    nlinarith
  have hk0half : omega ^ 2 * (1 / 6540000000) ≤ 1 / 2 := by nlinarith
  have hF0 : Real.sinh (omega ^ 2 * (1 / 6540000000)) / (omega ^ 2 * (1 / 6540000000)) ≤
      1 + omega ^ 2 * (1 / 6540000000) := (sinh_div_self_bounds _ hk0pos hk0half).2
  have hF1 : 1 + (omega ^ 2 * (19999999 / 19620000000)) ^ 2 / 6 <
      Real.sinh (omega ^ 2 * (19999999 / 19620000000)) /
        (omega ^ 2 * (19999999 / 19620000000)) := by
    rw [lt_div_iff hk1pos]
    calc (1 + (omega ^ 2 * (19999999 / 19620000000)) ^ 2 / 6) *
        (omega ^ 2 * (19999999 / 19620000000)) =
        omega ^ 2 * (19999999 / 19620000000) +
          (omega ^ 2 * (19999999 / 19620000000)) ^ 3 / 6 := by ring
    _ < Real.sinh (omega ^ 2 * (19999999 / 19620000000)) := sinh_gt_cubic _ hk1pos
  have hu0 : (0 : ℝ) ≤ omega ^ 2 * (2 / 9810000000) := by positivity
  have hu1 : omega ^ 2 * (2 / 9810000000) < 1 := by nlinarith
  have hexpu := exp_le_inv_one_sub _ hu0 hu1
  have hsplit : Real.exp (2 * omega ^ 2 * (-1 / 1000000000) / gravity) =
      Real.exp (2 * omega ^ 2 * (-2 / 1000000000) / gravity) *
        Real.exp (omega ^ 2 * (2 / 9810000000)) := by
    rw [← Real.exp_add]
    congr 1
    simp only [gravity]
    ring
  have hEpos : 0 < Real.exp (2 * omega ^ 2 * (-2 / 1000000000) / gravity) := Real.exp_pos _
  have hcore := c7_core (omega ^ 2) ht1 ht2
  have hpos1 : (0 : ℝ) < 1 - omega ^ 2 * (2 / 9810000000) := by linarith
  have hprod : (1 + omega ^ 2 * (1 / 6540000000)) * Real.exp (omega ^ 2 * (2 / 9810000000)) <
      1 + (omega ^ 2 * (19999999 / 19620000000)) ^ 2 / 6 := by
    have hstep : (1 + omega ^ 2 * (1 / 6540000000)) *
        (1 / (1 - omega ^ 2 * (2 / 9810000000))) <
        1 + (omega ^ 2 * (19999999 / 19620000000)) ^ 2 / 6 := by
      rw [mul_one_div, div_lt_iff hpos1]
      exact hcore
    have hnn : (0 : ℝ) ≤ 1 + omega ^ 2 * (1 / 6540000000) := by positivity
    calc (1 + omega ^ 2 * (1 / 6540000000)) * Real.exp (omega ^ 2 * (2 / 9810000000))
        ≤ (1 + omega ^ 2 * (1 / 6540000000)) * (1 / (1 - omega ^ 2 * (2 / 9810000000))) :=
          mul_le_mul_of_nonneg_left hexpu hnn
      _ < _ := hstep
  have hmain : Real.sinh (omega ^ 2 * (1 / 6540000000)) / (omega ^ 2 * (1 / 6540000000)) *
      Real.exp (2 * omega ^ 2 * (-1 / 1000000000) / gravity) <
      Real.sinh (omega ^ 2 * (19999999 / 19620000000)) /
        (omega ^ 2 * (19999999 / 19620000000)) *
        Real.exp (2 * omega ^ 2 * (-2 / 1000000000) / gravity) := by
    calc Real.sinh (omega ^ 2 * (1 / 6540000000)) / (omega ^ 2 * (1 / 6540000000)) *
        Real.exp (2 * omega ^ 2 * (-1 / 1000000000) / gravity)
        = Real.sinh (omega ^ 2 * (1 / 6540000000)) / (omega ^ 2 * (1 / 6540000000)) *
          Real.exp (omega ^ 2 * (2 / 9810000000)) *
          Real.exp (2 * omega ^ 2 * (-2 / 1000000000) / gravity) := by
          rw [hsplit]
          ring
      _ ≤ (1 + omega ^ 2 * (1 / 6540000000)) * Real.exp (omega ^ 2 * (2 / 9810000000)) *
          Real.exp (2 * omega ^ 2 * (-2 / 1000000000) / gravity) := by
          apply mul_le_mul_of_nonneg_right _ hEpos.le
          exact mul_le_mul_of_nonneg_right hF0 (Real.exp_pos _).le
      _ < (1 + (omega ^ 2 * (19999999 / 19620000000)) ^ 2 / 6) *
          Real.exp (2 * omega ^ 2 * (-2 / 1000000000) / gravity) :=
          mul_lt_mul_of_pos_right hprod hEpos
      _ ≤ Real.sinh (omega ^ 2 * (19999999 / 19620000000)) /
            (omega ^ 2 * (19999999 / 19620000000)) *
          Real.exp (2 * omega ^ 2 * (-2 / 1000000000) / gravity) :=
          mul_le_mul_of_nonneg_right hF1.le hEpos.le
  have hc := dhh85_spec_pos omega 10 1 hw (by norm_num) (by norm_num)
  have hg : (0 : ℝ) < gravity := by
    simp only [gravity]
    norm_num
  have hfac : 0 < 2 * (dhh85_spec omega 10 1 * omega ^ 3) / gravity := by positivity
  calc dhh85_kernel omega (-1 / 1000000000) (3 / 2000000000) 10 1
      = 2 * (dhh85_spec omega 10 1 * omega ^ 3) / gravity *
        (Real.sinh (omega ^ 2 * (1 / 6540000000)) / (omega ^ 2 * (1 / 6540000000)) *
          Real.exp (2 * omega ^ 2 * (-1 / 1000000000) / gravity)) := by
        simp only [dhh85_kernel]
        rw [if_pos hk0lt10, hk0]
        ring
    _ < 2 * (dhh85_spec omega 10 1 * omega ^ 3) / gravity *
        (Real.sinh (omega ^ 2 * (19999999 / 19620000000)) /
            (omega ^ 2 * (19999999 / 19620000000)) *
          Real.exp (2 * omega ^ 2 * (-2 / 1000000000) / gravity)) :=
        mul_lt_mul_of_pos_left hmain hfac
    _ = dhh85_kernel omega (-2 / 1000000000) (19999999 / 2000000000) 10 1 := by
        simp only [dhh85_kernel]
        rw [if_pos hk1lt10, hk1]
        ring

/-- C7 counterexample: on the depth array `z = [-1e-9, -2e-9, -0.02]` with
wind speed 10, wave age 1 and the default frequency sweep
(`omega` from 0.1 to 20 in 1000 steps), the Stokes drift magnitude at the
shallower level `z[0] = -1e-9` is strictly smaller than at the deeper level
`z[1] = -2e-9`: the grid-derived layer thickness at level 1 (about 0.01 m) is
seven orders of magnitude larger than at level 0, and its `sinh(kdz)/kdz`
depth-averaging factor dominates the negligible extra exponential decay, so
the profile magnitude is not monotonically non-increasing with depth. -/
theorem stokes_dhh85_magnitude_not_monotone :
    (-1 / 1000000000 : ℝ) > -2 / 1000000000 ∧
    |(stokes_drift_dhh85 [-1 / 1000000000, -2 / 1000000000, -1 / 50]
        10 1 (1 / 10) 20 1000).getD 0 0| <
      |(stokes_drift_dhh85 [-1 / 1000000000, -2 / 1000000000, -1 / 50]
        10 1 (1 / 10) 20 1000).getD 1 0| := by
  refine ⟨by norm_num, ?lt⟩
  have hdz0 : (grid_dz [-1 / 1000000000, -2 / 1000000000, -1 / 50]).getD 0 0 =
      3 / 2000000000 := by
    norm_num [grid_dz]
  have hdz1 : (grid_dz [-1 / 1000000000, -2 / 1000000000, -1 / 50]).getD 1 0 =
      19999999 / 2000000000 := by
    norm_num [grid_dz]
  have hz0 : ([-1 / 1000000000, -2 / 1000000000, -1 / 50] : List ℝ).getD 0 0 =
      -1 / 1000000000 := rfl
  have hz1 : ([-1 / 1000000000, -2 / 1000000000, -1 / 50] : List ℝ).getD 1 0 =
      -2 / 1000000000 := rfl
  have hdom : ((20 : ℝ) - 1 / 10) / (((1000 : ℕ) : ℝ) - 1) = 199 / 9990 := by
    norm_num
  rw [stokes_dhh85_getD _ _ _ _ _ _ 0 (by norm_num),
    stokes_dhh85_getD _ _ _ _ _ _ 1 (by norm_num)]
  rw [hdz0, hdz1, hz0, hz1]
  simp only [hdom]
  have hterm : ∀ j ∈ Finset.range 1000,
      (199 / 9990 : ℝ) * dhh85_kernel (1 / 10 + (j : ℝ) * (199 / 9990))
        (-1 / 1000000000) (3 / 2000000000) 10 1 <
      (199 / 9990 : ℝ) * dhh85_kernel (1 / 10 + (j : ℝ) * (199 / 9990))
        (-2 / 1000000000) (19999999 / 2000000000) 10 1 := by
    intro j hj
    have hj9 : (j : ℝ) ≤ 999 := by
      have h := Nat.le_of_lt_succ (Finset.mem_range.mp hj)
      exact_mod_cast h
    have hjnn : (0 : ℝ) ≤ (j : ℝ) := Nat.cast_nonneg j
    have hwb : 1 / 10 ≤ 1 / 10 + (j : ℝ) * (199 / 9990) := by nlinarith
    have hwt : 1 / 10 + (j : ℝ) * (199 / 9990) ≤ 20 := by nlinarith
    exact mul_lt_mul_of_pos_left (c7_kernel_lt _ hwb hwt) (by norm_num)
  have hlt := Finset.sum_lt_sum_of_nonempty ⟨0, Finset.mem_range.mpr (by norm_num)⟩ hterm
  have hnn : (0 : ℝ) ≤ ∑ j in Finset.range 1000,
      (199 / 9990 : ℝ) * dhh85_kernel (1 / 10 + (j : ℝ) * (199 / 9990))
        (-1 / 1000000000) (3 / 2000000000) 10 1 := by
    apply Finset.sum_nonneg
    intro j hj
    have hw : (0 : ℝ) < 1 / 10 + (j : ℝ) * (199 / 9990) := by
      have := Nat.cast_nonneg (α := ℝ) j
      nlinarith
    exact mul_nonneg (by norm_num)
      (dhh85_kernel_nonneg _ _ _ _ _ hw (by norm_num) (by norm_num))
  rw [abs_of_nonneg hnn, abs_of_nonneg (hnn.trans hlt.le)]
  exact hlt

/-- C7 amended: for every depth array, positive wind speed, wave age and
frequency range, and any two levels whose grid-derived layer thicknesses are
equal (as on a uniform cell-centered grid), the Stokes drift magnitude of
`stokes_drift_dhh85` at the deeper level is at most that at the shallower
level. -/
theorem stokes_dhh85_monotone_uniform (z : List ℝ) (ws wa omin omax : ℝ) (n i j : ℕ)
    (hws : 0 < ws) (hwa : 0 < wa) (homin : 0 < omin) (hmm : omin ≤ omax)
    (hi : i < z.length) (hj : j < z.length)
    (hz : z.getD j 0 ≤ z.getD i 0)
    (hdz : (grid_dz z).getD j 0 = (grid_dz z).getD i 0) :
    |(stokes_drift_dhh85 z ws wa omin omax n).getD j 0| ≤
      |(stokes_drift_dhh85 z ws wa omin omax n).getD i 0| := by
  rw [stokes_dhh85_getD z ws wa omin omax n j hj,
    stokes_dhh85_getD z ws wa omin omax n i hi, hdz]
  rcases Nat.eq_zero_or_pos n with rfl | hn
  · simp
  have hdom : (0 : ℝ) ≤ (omax - omin) / ((n : ℝ) - 1) := by
    apply div_nonneg (by linarith)
    have h1 : (1 : ℝ) ≤ (n : ℝ) := by exact_mod_cast hn
    linarith
  have hwpos : ∀ k : ℕ, (0 : ℝ) < omin + (k : ℝ) * ((omax - omin) / ((n : ℝ) - 1)) := by
    intro k
    have := mul_nonneg (Nat.cast_nonneg (α := ℝ) k) hdom
    linarith
  have hterm : ∀ k ∈ Finset.range n,
      (omax - omin) / ((n : ℝ) - 1) *
        dhh85_kernel (omin + (k : ℝ) * ((omax - omin) / ((n : ℝ) - 1))) (z.getD j 0)
          ((grid_dz z).getD i 0) ws wa ≤
      (omax - omin) / ((n : ℝ) - 1) *
        dhh85_kernel (omin + (k : ℝ) * ((omax - omin) / ((n : ℝ) - 1))) (z.getD i 0)
          ((grid_dz z).getD i 0) ws wa := by
    intro k hk
    exact mul_le_mul_of_nonneg_left
      (dhh85_kernel_mono_z _ _ _ _ _ _ (hwpos k) hws hwa hz) hdom
  have hsum := Finset.sum_le_sum hterm
  have hnn : (0 : ℝ) ≤ ∑ k in Finset.range n,
      (omax - omin) / ((n : ℝ) - 1) *
        dhh85_kernel (omin + (k : ℝ) * ((omax - omin) / ((n : ℝ) - 1))) (z.getD j 0)
          ((grid_dz z).getD i 0) ws wa := by
    apply Finset.sum_nonneg
    intro k hk
    exact mul_nonneg hdom (dhh85_kernel_nonneg _ _ _ _ _ (hwpos k) hws hwa)
  rw [abs_of_nonneg hnn, abs_of_nonneg (hnn.trans hsum)]
  exact hsum

/-- Witness for the amended C7 on the uniform cell-centered grid
`z = [-1/2, -3/2]` (both derived thicknesses equal 1). -/
theorem stokes_dhh85_monotone_uniform_witness :
    |(stokes_drift_dhh85 [-1 / 2, -3 / 2] 1 1 1 2 2).getD 1 0| ≤
      |(stokes_drift_dhh85 [-1 / 2, -3 / 2] 1 1 1 2 2).getD 0 0| :=
  stokes_dhh85_monotone_uniform [-1 / 2, -3 / 2] 1 1 1 2 2 0 1
    (by norm_num) (by norm_num) (by norm_num) (by norm_num)
    (by norm_num) (by norm_num) (by norm_num) (by norm_num [grid_dz])

end GotmTool
